import Mathlib

/-!
Verification development for the tnn-ai Tag Suggestion Engine.

This file gives a shallow embedding, in Lean 4, of the engine's core code:

* `src/app/utils/helpers.py`   — `normalize_arabic`, `clean_html`,
  `keyword_overlap_reason`;
* `src/app/utils/tagger.py`    — `TagSuggester` (preprocessing, hybrid
  scoring, similarity search, optional cross-encoder rerank, and the
  CSV build / snapshot persistence logic);
* `src/app/services/tags.py`   — `_canonicalize_text`/`compute_text_hash`
  (as an opaque hash primitive), `_cache_key`, `_encode_cursor`,
  `_decode_cursor`, and `TagService.suggestTags` (cache + pagination).

Modelling conventions:

* Python floats are modelled as exact rationals (`ℚ`).  Claims proved
  here concern orderings, thresholds and list structure, none of which
  depend on binary floating-point rounding.
* External capabilities are function-valued parameters: the sentence
  embedder composed with L2 normalization (`embedQ` — the spec's
  Embedding Gateway produces "normalized-length numeric vectors"), the
  `unidecode` transliteration table (`translit`), the optional
  cross-encoder (`cross_encoder`), the CMS article fetch
  (`fetchArticleText`) and the SHA-1 text hash (`textHash`).
* Unicode character classes (`\w`, `\p\x7bL\x7d`, `\p\x7bNd\x7d`) are modelled
  through Lean's ASCII-scoped `Char.isAlpha`/`Char.isDigit`; all concrete
  inputs used in theorems are ASCII, where the two coincide.
* Bounded-fuel recursion is used for the regex-substitution scans; the
  fuel is the input length plus one, and every step consumes at least
  one character, so the fuel never runs out.
-/

namespace TnnAI

/-- Python slice-index clamping: negative indices count from the end,
indices are clamped to `[0, n]`. -/
def pyClampIdx (n : Nat) (i : Int) : Nat :=
  if i < 0 then (max 0 ((n : Int) + i)).toNat else min i.toNat n

/-- Python slice `l[a:b]` (step 1). -/
def pySlice {α : Type} (l : List α) (a b : Int) : List α :=
  (l.take (pyClampIdx l.length b)).drop (pyClampIdx l.length a)

/-- Python `round` to an integer: round half to even (banker's rounding),
modelled exactly on rationals. -/
def pyRoundHalfEven (q : ℚ) : Int :=
  let f := q.floor
  let r := q - (f : ℚ)
  if r < 1/2 then f
  else if 1/2 < r then f + 1
  else if f % 2 = 0 then f else f + 1

/-- Python `round(x, 4)` on rationals. -/
def pyRound4 (q : ℚ) : ℚ := (pyRoundHalfEven (q * 10000) : ℚ) / 10000

/-- Python `round(x, 2)` on rationals (used by the `%.2f` cache-key format). -/
def pyRound2 (q : ℚ) : Int := pyRoundHalfEven (q * 100)

/-- Split a character list on a separator character (Python
`str.split(sep)` for a one-character separator). -/
def splitOnChar (sep : Char) : List Char → List (List Char)
  | [] => [[]]
  | c :: rest =>
    let r := splitOnChar sep rest
    if c = sep then [] :: r
    else
      match r with
      | [] => [[c]]
      | g :: gs => (c :: g) :: gs

/-- Join character lists with a separator (Python `sep.join(parts)`). -/
def joinSep (sep : List Char) : List (List Char) → List Char
  | [] => []
  | [p] => p
  | p :: ps => p ++ sep ++ joinSep sep ps

/-- Insert an element before the first list element it strictly
precedes (the insertion step of a stable sort). -/
def insertStrict {α : Type} (lt : α → α → Bool) (a : α) : List α → List α
  | [] => [a]
  | b :: l => if lt a b then a :: b :: l else b :: insertStrict lt a l

/-- Stable insertion sort by a strict precedence predicate; with
`lt a b = (key b < key a)` this is exactly Python's stable
`list.sort(key=..., reverse=True)`. -/
def sortStrict {α : Type} (lt : α → α → Bool) : List α → List α
  | [] => []
  | a :: l => insertStrict lt a (sortStrict lt l)

section Helpers

/-- Membership of a character in the Arabic diacritics ranges stripped by
`_ARABIC_DIACRITICS` in `helpers.py`
(`[ؐ-ًؚ-ٟۖ-ۭ]`). -/
def isArabicDiacritic (c : Char) : Bool :=
  (0x610 ≤ c.toNat && c.toNat ≤ 0x61A) ||
  (0x64B ≤ c.toNat && c.toNat ≤ 0x65F) ||
  (0x6D6 ≤ c.toNat && c.toNat ≤ 0x6ED)

/-- The per-character replacements performed by `normalize_arabic`. -/
def normalizeArabicChar (c : Char) : Char :=
  if c = 'أ' ∨ c = 'إ' ∨ c = 'آ' then 'ا'
  else if c = 'ة' then 'ه'
  else if c = 'ى' then 'ي'
  else if c = 'ؤ' then 'و'
  else if c = 'ئ' then 'ي'
  else c

/-- `helpers.normalize_arabic`: strip diacritics, then normalize hamza and
other letter variants.  (The Python code short-circuits on falsy input;
on the empty string both branches agree.) -/
def normalize_arabic (s : String) : String :=
  String.mk ((s.data.filter (fun c => !isArabicDiacritic c)).map normalizeArabicChar)

/-- One scan step of `_CLEANR = re.compile('<.*?>')` substitution used by
`helpers.clean_html`: a match is a `<`, a minimal run of non-newline
characters, then `>`.  Fuel-bounded; each step consumes at least one
character. -/
def cleanHtmlGo : Nat → List Char → List Char
  | 0, s => s
  | Nat.succ fuel, s =>
    match s with
    | [] => []
    | c :: rest =>
      if c = '<' then
        let inner := rest.takeWhile (fun d => !(d = '>') && !(d = '\n'))
        if (rest.drop inner.length).headD 'x' = '>' then
          cleanHtmlGo fuel (rest.drop (inner.length + 1))
        else c :: cleanHtmlGo fuel rest
      else c :: cleanHtmlGo fuel rest

/-- `helpers.clean_html`. -/
def clean_html (s : String) : String :=
  String.mk (cleanHtmlGo (s.data.length + 1) s.data)

/-- A word character for the tokenizer regex `[\p\x7bL\x7d\p\x7bNd\x7d]\x7b3,\x7d`
(letters and decimal digits), ASCII-scoped. -/
def isTokenChar (c : Char) : Bool := c.isAlpha || c.isDigit

/-- Maximal runs of token characters in a character list (the matches of
the tokenizer regex, before the length-3 filter).  Fuel-bounded. -/
def tokenRunsGo : Nat → List Char → List (List Char)
  | 0, _ => []
  | Nat.succ fuel, s =>
    match s with
    | [] => []
    | c :: rest =>
      if isTokenChar c then
        let run := rest.takeWhile isTokenChar
        (c :: run) :: tokenRunsGo fuel (rest.drop run.length)
      else tokenRunsGo fuel rest

/-- The token multiset extracted by `tok` in `keyword_overlap_reason`:
maximal alphanumeric runs of length at least 3. -/
def pyTokens (s : String) : List String :=
  ((tokenRunsGo (s.data.length + 1) s.data).filter (fun r => 3 ≤ r.length)).map
    (fun r => String.mk (r.map Char.toLower))

/-- The shared-term list `list(a.intersection(b))[:top_n]` of
`keyword_overlap_reason` with `top_n = 5`.  Python iterates the set in an
unspecified (hash-dependent) order; we fix the first-occurrence order of
the query tokens.  Only the length of this list is consumed by
`_hybrid_score`, and the length agrees with Python's. -/
def keywordSharedTerms (text tag_text : String) : List String :=
  let a := (pyTokens text).dedup
  let b := (pyTokens tag_text).dedup
  (a.filter (fun w => w ∈ b)).take 5

/-- `helpers.keyword_overlap_reason` (the `regex`-module tokenizer path;
the stdlib-`re` fallback lambda would raise on the unsupported `\p`
escape and is outside the modelled scope). -/
def keyword_overlap_reason (text tag_text : String) : String :=
  let inter := keywordSharedTerms text tag_text
  if inter.length = 0 then "Semantic similarity to tag description"
  else "Shared terms: " ++ String.mk (joinSep ", ".data (inter.map String.data))

end Helpers

section Tagger

/-- `TagRow` from `tagger.py`. -/
structure TagRow where
  name : String
  slug : String
  url : Option String
  description : Option String
deriving DecidableEq, Repr

/-- The environment-derived settings consumed by the engine
(`config/settings.py`). -/
structure AppSettings where
  EMBEDDING_MODEL : String
  NORMALIZE_ARABIC : Bool
  USE_CROSS_ENCODER : Bool
  CROSS_ENCODER_MODEL : String
  TAGS_CSV : String
  TOPK_CANDIDATES : Nat
  CACHE_TTL_SECONDS : Nat
  faissAvailable : Bool
deriving DecidableEq, Repr

/-- In-memory state of a `TagSuggester`.  `embedQ` models
`_embed_texts` composed with the subsequent L2 normalization
(`faiss.normalize_L2` / `_normalize_L2_inplace`); the Gateway contract in
the spec is text to normalized fixed-length vector.  `translit` models the
`unidecode` library (identity on ASCII).  The similarity index
(`faiss.IndexFlatIP` or `NumpyIPIndex`) stores exactly the normalized
embedding matrix, so it is represented by `embeddings` itself. -/
structure SuggesterState where
  cfg : AppSettings
  model_name : String
  embedQ : String → List ℚ
  translit : String → String
  cross_encoder : Option (String → String → ℚ)
  tags : List TagRow
  tag_texts : List String
  embeddings : Option (List (List ℚ))

/-- A scored suggestion dict as built in `TagSuggester.suggest`. -/
structure Item where
  slug : String
  name : String
  url : Option String
  description : String
  score : ℚ
  reason : String
deriving DecidableEq, Repr

/-- The metadata dict returned by `TagSuggester.suggest`. -/
structure SuggestMeta where
  model : String
  count : Nat
  csv : String
  reranker : Option String
  engine : String
deriving DecidableEq, Repr

/-- Whether `"e5" in self.model_name.lower()`. -/
def hasE5 (model_name : String) : Bool :=
  decide (List.IsInfix "e5".data (model_name.data.map Char.toLower))

/-- `TagSuggester._hybrid_score` with default `alpha = 0.8`: a weighted
combination of the raw semantic score and a capped lexical-overlap
signal parsed back out of the `keyword_overlap_reason` string. -/
def hybrid_score (text tag_text : String) (semantic_score : ℚ) : ℚ :=
  let alpha : ℚ := 4/5
  let kw := keyword_overlap_reason text tag_text
  let overlap : ℚ :=
    if List.IsInfix "Shared terms:".data kw.data then
      let words := splitOnChar ',' ((splitOnChar ':' kw.data).getD 1 [])
      min (1/2) ((words.length : ℚ) / 10)
    else 0
  alpha * semantic_score + (1 - alpha) * overlap

/-- A `\w` word character of the preprocessing regex, ASCII-scoped. -/
def isWordChar (c : Char) : Bool := c.isAlphanum || c = '_'

/-- One scan of
`re.sub(r"http\S+|www\S+|<[^>]+>|[^\w\s]", " ", text)`:
Python's `re` tries the alternatives in order at each position and
replaces the leftmost match with a space.  Fuel-bounded; every step
consumes at least one character. -/
def subPunctGo : Nat → List Char → List Char
  | 0, s => s
  | Nat.succ fuel, s =>
    match s with
    | [] => []
    | c :: rest =>
      let httpRun := (s.drop 4).takeWhile (fun d => !d.isWhitespace)
      let wwwRun := (s.drop 3).takeWhile (fun d => !d.isWhitespace)
      if "http".data.isPrefixOf s && !httpRun.isEmpty then
        ' ' :: subPunctGo fuel ((s.drop 4).drop httpRun.length)
      else if "www".data.isPrefixOf s && !wwwRun.isEmpty then
        ' ' :: subPunctGo fuel ((s.drop 3).drop wwwRun.length)
      else if c = '<' then
        let inner := rest.takeWhile (fun d => !(d = '>'))
        if !inner.isEmpty && (rest.drop inner.length).headD 'x' = '>' then
          ' ' :: subPunctGo fuel (rest.drop (inner.length + 1))
        else if !isWordChar c && !c.isWhitespace then ' ' :: subPunctGo fuel rest
        else c :: subPunctGo fuel rest
      else if !isWordChar c && !c.isWhitespace then ' ' :: subPunctGo fuel rest
      else c :: subPunctGo fuel rest

/-- `re.sub(r"\s+", " ", text)`: collapse each maximal whitespace run to a
single space.  Fuel-bounded. -/
def collapseWsGo : Nat → List Char → List Char
  | 0, s => s
  | Nat.succ fuel, s =>
    match s with
    | [] => []
    | c :: rest =>
      if c.isWhitespace then
        let run := rest.takeWhile (fun d => d.isWhitespace)
        ' ' :: collapseWsGo fuel (rest.drop run.length)
      else c :: collapseWsGo fuel rest

/-- Python `str.strip()` for whitespace. -/
def pyStrip (s : List Char) : List Char :=
  ((s.dropWhile (fun c => c.isWhitespace)).reverse.dropWhile
    (fun c => c.isWhitespace)).reverse

/-- `TagSuggester._preprocess_text`: optional Arabic normalization,
transliteration, URL/markup/punctuation stripping, whitespace collapsing
and a final `clean_html`. -/
def preprocess_text (cfg : AppSettings) (translit : String → String)
    (text : String) : String :=
  let t1 := if cfg.NORMALIZE_ARABIC then normalize_arabic text else text
  let t2 := translit t1
  let t3 := String.mk (subPunctGo (t2.data.length + 1) t2.data)
  let t4 := String.mk (pyStrip (collapseWsGo (t3.data.length + 1) t3.data))
  clean_html t4

/-- Inner product of two vectors. -/
def dot (v w : List ℚ) : ℚ := (List.zipWith (fun a b => a * b) v w).sum

/-- Strict precedence of search hits: higher score first, ties by
catalog index (the deterministic order FAISS produces; hit indices are
pairwise distinct so ties in both components cannot occur). -/
def hitLt (a b : ℚ × Nat) : Bool :=
  decide (b.1 < a.1 ∨ (a.1 = b.1 ∧ a.2 < b.2))

/-- Exact inner-product top-`k` search over the stored normalized matrix
(`faiss.IndexFlatIP.search` / `NumpyIPIndex.search`): score every row
against the query, order by score descending, return the best `k`
`(score, index)` pairs.  (FAISS pads with index `-1` when `k` exceeds the
row count; `suggest` skips those hits, which coincides with this model
simply returning fewer pairs.) -/
def searchTopK (E : List (List ℚ)) (qv : List ℚ) (k : Nat) : List (ℚ × Nat) :=
  (sortStrict hitLt (E.enum.map (fun p => (dot qv p.2, p.1)))).take k

/-- `TagSuggester._item_text`: the textual rendering of an item handed to
the cross-encoder.  The `slug:` and `url:` components are nonempty
strings even when the underlying fields are empty, so they always
survive the truthiness filter. -/
def item_text (it : Item) : String :=
  String.mk (joinSep " — ".data
    ((([it.name, it.description, "slug:" ++ it.slug,
        "url:" ++ it.url.getD ""]).filter (fun s => !(s = ""))).map String.data))

/-- `TagSuggester._rerank_with_cross_encoder`: when a cross-encoder is
loaded, replace every item's score by the pairwise relevance score and
stable-sort descending (Python `list.sort(key=..., reverse=True)`);
otherwise return the items untouched. -/
def rerank_with_cross_encoder (st : SuggesterState) (query_text : String)
    (items : List Item) : List Item :=
  match st.cross_encoder with
  | none => items
  | some ce =>
    sortStrict (fun a b => decide (b.score < a.score))
      (items.map (fun it => { it with score := ce query_text (item_text it) }))

/-- The query string actually embedded: e5-style models get a
`"query: "` prefix. -/
def queryString (model_name text_proc : String) : String :=
  if hasE5 model_name then "query: " ++ text_proc else text_proc

/-- The pre-truncation candidate list built by the `for score, idx in
zip(scores, indices)` loop of `TagSuggester.suggest`: skip invalid tags,
apply the `min_score` threshold to the raw similarity score, then
replace the score with the rounded hybrid score and attach a reason. -/
def shortlistItems (st : SuggesterState) (text_proc : String)
    (shortlist : List (ℚ × Nat)) (min_score : ℚ) : List Item :=
  shortlist.filterMap (fun si =>
    match st.tags.get? si.2 with
    | none => none
    | some tag =>
      if tag.slug = "" ∨ tag.name = "" then none
      else
        let ttext := st.tag_texts.getD si.2 ""
        if si.1 < min_score then none
        else
          some { slug := tag.slug, name := tag.name, url := tag.url,
                 description := "",
                 score := pyRound4 (hybrid_score text_proc ttext si.1),
                 reason := keyword_overlap_reason text_proc ttext })

/-- The candidate pipeline of `TagSuggester.suggest` after the query has
been embedded (and any dimension-mismatch reload taken): retrieve the
shortlist (a fixed cap of 100), build the filtered hybrid-scored items,
and optionally rerank when the mean score is below the 0.6 confidence
threshold.  `suggest` applies the final `items[:k]` on top of this. -/
def resolverItems (st1 : SuggesterState) (text_proc : String) (qv : List ℚ)
    (kc : Nat) (min_score : ℚ) (use_ce : Bool) : List Item :=
  let shortlist := searchTopK (st1.embeddings.getD []) qv (min 100 (max kc 1))
  let items := shortlistItems st1 text_proc shortlist min_score
  let avg : ℚ := if items.length = 0 then 0 else (items.map (fun it => it.score)).sum / items.length
  if use_ce = true ∧ items ≠ [] ∧ avg < 3/5 then
    rerank_with_cross_encoder st1 text_proc items
  else items

/-- `TagSuggester.suggest`.  `reloadSt` models the `self.reload()`
side-effect taken on an embedding-dimension mismatch (a full rebuild
from the CSV); when the query vector's dimensionality matches the stored
matrix the reload path is not taken. -/
def TagSuggester.suggest (st : SuggesterState) (reloadSt : Unit → SuggesterState)
    (text : String) (k : Nat) (min_score : ℚ) (use_reranker : Option Bool) :
    List Item × SuggestMeta :=
  let text_proc := preprocess_text st.cfg st.translit text
  let qv0 := st.embedQ (queryString st.model_name text_proc)
  let mismatch :=
    match st.embeddings with
    | none => true
    | some E => qv0.length ≠ (E.headD []).length
  let st1 := if mismatch then reloadSt () else st
  let qv := if mismatch then st1.embedQ (queryString st1.model_name text_proc) else qv0
  let kc := max 1 (min k st1.tags.length)
  let use_ce :=
    match use_reranker with
    | none => st1.cfg.USE_CROSS_ENCODER
    | some b => b
  ((resolverItems st1 text_proc qv kc min_score use_ce).take kc,
   { model := st1.model_name, count := st1.tags.length, csv := st1.cfg.TAGS_CSV,
     reranker := if use_ce = true then some st1.cfg.CROSS_ENCODER_MODEL else none,
     engine := if st1.cfg.faissAvailable then "faiss" else "numpy" })

end Tagger

section CursorCodec

/-!
The continuation token of `services/tags.py`:

    def encode_cursor(key, pos): base64.urlsafe_b64encode(json.dumps(...).encode()).decode()
    def decode_cursor(cur):      json.loads(base64.urlsafe_b64decode(cur.encode()).decode()) ... or None

We model the full pipeline: Python `json.dumps` with its default
`ensure_ascii` escaping, UTF-8 encoding, URL-safe base64, and on the way
back a JSON parser for flat objects whose values are strings or
integers (the shape `json.dumps(\x7b"k": key, "p": pos\x7d)` produces).
Inputs whose JSON has other shapes (nested values, floats, booleans, a
non-string `"k"`, a numeric-string `"p"`, or lone surrogates) are
modelled as decode failures; in Python they either raise inside the
`try` (giving `None` as well) or produce values outside the image of
`encode_cursor`.  `binascii`'s lenient discard of non-alphabet input
characters is modelled; its more arcane mid-stream `=` behaviours are
modelled as failures. -/

/-- The URL-safe base64 alphabet used by `base64.urlsafe_b64encode`. -/
def b64UrlAlphabet : List Char :=
  "ABCDEFGHIJKLMNOPQRSTUVWXYZabcdefghijklmnopqrstuvwxyz0123456789-_".data

/-- The standard base64 alphabet (what `b64decode` reads after
`urlsafe_b64decode` translates `-_` to `+/`). -/
def b64StdAlphabet : List Char :=
  "ABCDEFGHIJKLMNOPQRSTUVWXYZabcdefghijklmnopqrstuvwxyz0123456789+/".data

/-- Value to URL-safe alphabet character. -/
def b64CharOfVal (v : Nat) : Char := b64UrlAlphabet.getD v 'A'

/-- Standard-alphabet character to value. -/
def b64StdVal (c : Char) : Option Nat := b64StdAlphabet.findIdx? (fun d => d = c)

/-- `base64.urlsafe_b64encode` on a byte list: 3-byte groups become 4
alphabet characters; a trailing group of 1 or 2 bytes is padded with
`=`. -/
def urlsafeB64Encode : List Nat → List Char
  | [] => []
  | [b1] => [b64CharOfVal (b1 / 4), b64CharOfVal (b1 % 4 * 16), '=', '=']
  | [b1, b2] =>
    [b64CharOfVal (b1 / 4), b64CharOfVal (b1 % 4 * 16 + b2 / 16),
     b64CharOfVal (b2 % 16 * 4), '=']
  | b1 :: b2 :: b3 :: rest =>
    b64CharOfVal (b1 / 4) :: b64CharOfVal (b1 % 4 * 16 + b2 / 16) ::
    b64CharOfVal (b2 % 16 * 4 + b3 / 64) :: b64CharOfVal (b3 % 64) ::
    urlsafeB64Encode rest

/-- Decode 4-character groups of (standard-alphabet) base64, with `=`
padding allowed only at the very end. -/
def b64DecodeQuads : List Char → Option (List Nat)
  | [] => some []
  | c1 :: c2 :: c3 :: c4 :: rest =>
    match b64StdVal c1, b64StdVal c2 with
    | some v1, some v2 =>
      if c3 = '=' then
        if c4 = '=' ∧ rest = [] then some [v1 * 4 + v2 / 16] else none
      else
        match b64StdVal c3 with
        | some v3 =>
          if c4 = '=' then
            if rest = [] then some [v1 * 4 + v2 / 16, v2 % 16 * 16 + v3 / 4]
            else none
          else
            match b64StdVal c4 with
            | some v4 =>
              (b64DecodeQuads rest).map
                (fun bs => (v1 * 4 + v2 / 16) :: (v2 % 16 * 16 + v3 / 4) ::
                           (v3 % 4 * 64 + v4) :: bs)
            | none => none
        | none => none
    | _, _ => none
  | _ => none

/-- The `-_` to `+/` character translation `urlsafe_b64decode` applies
before decoding. -/
def b64Translate (c : Char) : Char :=
  if c = '-' then '+' else if c = '_' then '/' else c

/-- Characters `binascii` keeps (lenient mode discards everything else
before decoding). -/
def b64KeepChar (c : Char) : Bool :=
  decide (c ∈ b64StdAlphabet) || decide (c = '=')

/-- `base64.urlsafe_b64decode`: translate `-_` to `+/`, discard
characters outside the alphabet (binascii's lenient mode), then decode
4-character groups; a leftover group is a `binascii.Error`. -/
def urlsafeB64Decode (s : List Char) : Option (List Nat) :=
  b64DecodeQuads ((s.map b64Translate).filter b64KeepChar)

/-- UTF-8 encoding of one unicode scalar value. -/
def utf8EncodeChar (c : Char) : List Nat :=
  let n := c.toNat
  if n < 0x80 then [n]
  else if n < 0x800 then [0xC0 + n / 64, 0x80 + n % 64]
  else if n < 0x10000 then [0xE0 + n / 4096, 0x80 + n / 64 % 64, 0x80 + n % 64]
  else [0xF0 + n / 262144, 0x80 + n / 4096 % 64, 0x80 + n / 64 % 64, 0x80 + n % 64]

/-- Python `str.encode()` (UTF-8). -/
def utf8Encode (s : List Char) : List Nat := (s.map utf8EncodeChar).flatten

/-- Whether a byte is a UTF-8 continuation byte. -/
def utf8Cont (b : Nat) : Bool := 0x80 ≤ b && b < 0xC0

/-- Python `bytes.decode()` (strict UTF-8): rejects overlong forms,
surrogates and out-of-range scalars.  Fuel-bounded; every step consumes
at least one byte. -/
def utf8DecodeGo : Nat → List Nat → Option (List Char)
  | _, [] => some []
  | 0, _ => none
  | Nat.succ fuel, b :: rest =>
    if b < 0x80 then (utf8DecodeGo fuel rest).map (fun cs => Char.ofNat b :: cs)
    else if b < 0xC2 then none
    else if b < 0xE0 then
      match rest with
      | b2 :: rest2 =>
        if utf8Cont b2 then
          (utf8DecodeGo fuel rest2).map
            (fun cs => Char.ofNat ((b - 0xC0) * 64 + (b2 - 0x80)) :: cs)
        else none
      | [] => none
    else if b < 0xF0 then
      match rest with
      | b2 :: b3 :: rest3 =>
        let cp := (b - 0xE0) * 4096 + (b2 - 0x80) * 64 + (b3 - 0x80)
        if utf8Cont b2 && utf8Cont b3 && decide (0x800 ≤ cp) &&
           !(decide (0xD800 ≤ cp) && decide (cp ≤ 0xDFFF)) then
          (utf8DecodeGo fuel rest3).map (fun cs => Char.ofNat cp :: cs)
        else none
      | _ => none
    else if b < 0xF5 then
      match rest with
      | b2 :: b3 :: b4 :: rest4 =>
        let cp := (b - 0xF0) * 262144 + (b2 - 0x80) * 4096 + (b3 - 0x80) * 64 + (b4 - 0x80)
        if utf8Cont b2 && utf8Cont b3 && utf8Cont b4 &&
           decide (0x10000 ≤ cp) && decide (cp ≤ 0x10FFFF) then
          (utf8DecodeGo fuel rest4).map (fun cs => Char.ofNat cp :: cs)
        else none
      | _ => none
    else none

/-- Lower-case hexadecimal digit characters (also reused for decimal
digit rendering). -/
def toHexDigit (n : Nat) : Char := "0123456789abcdef".data.getD n '0'

/-- Four lower-case hex digits of a number below `0x10000`
(Python's `\u%04x`). -/
def hex4 (n : Nat) : List Char :=
  [toHexDigit (n / 4096 % 16), toHexDigit (n / 256 % 16),
   toHexDigit (n / 16 % 16), toHexDigit (n % 16)]

/-- `json.dumps` default (`ensure_ascii=True`) escaping of one
character: `"` and `\` and the five shorthand controls get two-character
escapes, other controls and all non-ASCII get `\uXXXX` (a surrogate pair
beyond the BMP), printable ASCII is literal. -/
def jsonEscapeChar (c : Char) : List Char :=
  if c = '"' then ['\\', '"']
  else if c = '\\' then ['\\', '\\']
  else if c = '\n' then ['\\', 'n']
  else if c = '\r' then ['\\', 'r']
  else if c = '\t' then ['\\', 't']
  else if c.toNat = 8 then ['\\', 'b']
  else if c.toNat = 12 then ['\\', 'f']
  else if c.toNat < 0x20 ∨ 0x7e < c.toNat then
    if c.toNat < 0x10000 then '\\' :: 'u' :: hex4 c.toNat
    else
      let v := c.toNat - 0x10000
      ('\\' :: 'u' :: hex4 (0xD800 + v / 1024)) ++
        ('\\' :: 'u' :: hex4 (0xDC00 + v % 1024))
  else [c]

/-- The escaped body of a JSON string literal. -/
def jsonEscape (s : List Char) : List Char := (s.map jsonEscapeChar).flatten

/-- Decimal digit characters of a natural number, fuel-bounded (the
fuel strictly exceeds the digit count). -/
def natToCharsGo : Nat → Nat → List Char
  | 0, _ => []
  | Nat.succ fuel, n =>
    if n < 10 then [toHexDigit n]
    else natToCharsGo fuel (n / 10) ++ [toHexDigit (n % 10)]

/-- Python `str(n)` for a natural number. -/
def natToChars (n : Nat) : List Char := natToCharsGo (n + 1) n

/-- Python `str` of an integer. -/
def intToChars (i : Int) : List Char :=
  if i < 0 then '-' :: natToChars i.natAbs else natToChars i.toNat

/-- `json.dumps(\x7b"k": key, "p": pos\x7d)` with the default separators
`', '` and `': '` and insertion-ordered keys. -/
def jsonDumpsCursor (key : String) (pos : Int) : List Char :=
  "\x7b\"k\": \"".data ++ (jsonEscape key.data ++ ("\", \"p\": ".data ++
    (intToChars pos ++ ['\x7d'])))

/-- `_encode_cursor`. -/
def encode_cursor (key : String) (pos : Int) : String :=
  String.mk (urlsafeB64Encode (utf8Encode (jsonDumpsCursor key pos)))

/-- JSON insignificant whitespace. -/
def jsonWs (s : List Char) : List Char :=
  s.dropWhile (fun c => c = ' ' || c = '\t' || c = '\n' || c = '\r')

/-- Hex digit value (both cases accepted by the JSON `\u` escape). -/
def fromHexDigit (c : Char) : Option Nat :=
  if '0' ≤ c ∧ c ≤ '9' then some (c.toNat - 48)
  else if 'a' ≤ c ∧ c ≤ 'f' then some (c.toNat - 87)
  else if 'A' ≤ c ∧ c ≤ 'F' then some (c.toNat - 55)
  else none

/-- Parse exactly four hex digits. -/
def parseHex4 : List Char → Option (Nat × List Char)
  | a :: b :: c :: d :: rest =>
    match fromHexDigit a, fromHexDigit b, fromHexDigit c, fromHexDigit d with
    | some x, some y, some z, some w => some (((x * 16 + y) * 16 + z) * 16 + w, rest)
    | _, _, _, _ => none
  | _ => none

/-- Parse the body of a JSON string literal (after the opening quote),
returning the decoded characters and the input after the closing quote.
Strict mode: raw control characters are rejected; surrogate escape
pairs are combined; lone surrogate escapes (which Python would turn
into unpaired surrogate code units, unrepresentable as `Char`) are
rejected.  Fuel-bounded. -/
def parseJsonStringGo : Nat → List Char → Option (List Char × List Char)
  | 0, _ => none
  | Nat.succ fuel, s =>
    match s with
    | [] => none
    | c :: rest =>
      if c = '"' then some ([], rest)
      else if c = '\\' then
        match rest with
        | [] => none
        | e :: rest2 =>
          if e = 'u' then
            match parseHex4 rest2 with
            | none => none
            | some (n, rest3) =>
              if 0xD800 ≤ n ∧ n ≤ 0xDBFF then
                match rest3 with
                | a :: b :: rest4 =>
                  if a = '\\' ∧ b = 'u' then
                    match parseHex4 rest4 with
                    | none => none
                    | some (m, rest5) =>
                      if 0xDC00 ≤ m ∧ m ≤ 0xDFFF then
                        (parseJsonStringGo fuel rest5).map
                          (fun p => (Char.ofNat (0x10000 + (n - 0xD800) * 1024 + (m - 0xDC00)) :: p.1, p.2))
                      else none
                  else none
                | _ => none
              else if 0xDC00 ≤ n ∧ n ≤ 0xDFFF then none
              else
                (parseJsonStringGo fuel rest3).map
                  (fun p => (Char.ofNat n :: p.1, p.2))
          else
            let esc : Option Char :=
              if e = '"' then some '"'
              else if e = '\\' then some '\\'
              else if e = '/' then some '/'
              else if e = 'b' then some (Char.ofNat 8)
              else if e = 'f' then some (Char.ofNat 12)
              else if e = 'n' then some '\n'
              else if e = 'r' then some '\r'
              else if e = 't' then some '\t'
              else none
            match esc with
            | none => none
            | some ch =>
              (parseJsonStringGo fuel rest2).map (fun p => (ch :: p.1, p.2))
      else if c.toNat < 0x20 then none
      else (parseJsonStringGo fuel rest).map (fun p => (c :: p.1, p.2))

/-- A JSON value of the flat fragment produced by `_encode_cursor`:
strings and integers. -/
inductive JVal where
  | str : List Char → JVal
  | int : Int → JVal
deriving DecidableEq

/-- Numeric value of a digit list. -/
def digitsVal (ds : List Char) : Nat :=
  ds.foldl (fun a c => a * 10 + (c.toNat - 48)) 0

/-- Parse a JSON integer (sign and digits; leading zeros rejected;
a following `.`/`e`/`E` would make it a float, outside the modelled
fragment, and is rejected). -/
def parseJsonInt (s : List Char) : Option (Int × List Char) :=
  let neg := s.headD 'x' = '-'
  let s1 := if neg then s.drop 1 else s
  let digits := s1.takeWhile (fun c => c.isDigit)
  if digits.isEmpty then none
  else if digits.headD '0' = '0' ∧ 1 < digits.length then none
  else
    let rest := s1.drop digits.length
    if rest.headD 'x' = '.' ∨ rest.headD 'x' = 'e' ∨ rest.headD 'x' = 'E' then none
    else
      let n : Int := (digitsVal digits : Nat)
      some (if neg then -n else n, rest)

/-- Parse a JSON value of the flat fragment. -/
def parseJsonValue (s : List Char) : Option (JVal × List Char) :=
  match s with
  | c :: r =>
    if c = '"' then (parseJsonStringGo (r.length + 1) r).map (fun p => (JVal.str p.1, p.2))
    else (parseJsonInt (c :: r)).map (fun p => (JVal.int p.1, p.2))
  | [] => (parseJsonInt []).map (fun p => (JVal.int p.1, p.2))

/-- Parse one or more `"key": value` members separated by commas.
Fuel-bounded (one unit per member). -/
def parseJsonMembersGo : Nat → List Char → Option (List (List Char × JVal) × List Char)
  | 0, _ => none
  | Nat.succ fuel, s =>
    match s with
    | c :: r =>
      if c = '"' then
        match parseJsonStringGo (r.length + 1) r with
        | none => none
        | some (key, r2) =>
          match jsonWs r2 with
          | c2 :: r3 =>
            if c2 = ':' then
              match parseJsonValue (jsonWs r3) with
              | none => none
              | some (v, r5) =>
                match jsonWs r5 with
                | c3 :: r6 =>
                  if c3 = ',' then
                    match parseJsonMembersGo fuel (jsonWs r6) with
                    | some (ms, rest) => some ((key, v) :: ms, rest)
                    | none => none
                  else some ([(key, v)], c3 :: r6)
                | [] => some ([(key, v)], [])
            else none
          | [] => none
      else none
    | [] => none

/-- `json.loads` restricted to flat objects of strings and integers:
parse the object and require only whitespace to remain. -/
def parseCursorObj (s : List Char) : Option (List (List Char × JVal)) :=
  match jsonWs s with
  | c :: r =>
    if c = '\x7b' then
      match jsonWs r with
      | c2 :: r2 =>
        if c2 = '\x7d' then (if (jsonWs r2).isEmpty then some [] else none)
        else
          match parseJsonMembersGo ((c2 :: r2).length + 1) (c2 :: r2) with
          | none => none
          | some (ms, rest) =>
            match jsonWs rest with
            | c3 :: r3 =>
              if c3 = '\x7d' then (if (jsonWs r3).isEmpty then some ms else none)
              else none
            | [] => none
      | [] => none
    else none
  | [] => none

/-- Python dict construction from parsed members: later duplicate keys
win. -/
def jlookup (key : List Char) (ms : List (List Char × JVal)) : Option JVal :=
  ms.foldl (fun acc m => if m.1 = key then some m.2 else acc) none

/-- `_decode_cursor`: every failure at any stage (base64, UTF-8, JSON
parse, missing or ill-typed fields) is caught by the blanket `except`
and collapses to `None`. -/
def decode_cursor (cur : String) : Option (String × Int) :=
  match urlsafeB64Decode cur.data with
  | none => none
  | some bytes =>
    match utf8DecodeGo (bytes.length + 1) bytes with
    | none => none
    | some chars =>
      match parseCursorObj chars with
      | none => none
      | some ms =>
        match jlookup "k".data ms, jlookup "p".data ms with
        | some (JVal.str k), some (JVal.int p) => some (String.mk k, p)
        | _, _ => none

end CursorCodec

section Service

/-- `SuggestRequest` (`config/models.py`): the schema bounds `limit` to
`ge=1, le=50` and `min_score` to `ge=-1.0, le=1.0`.  `text=None` is
modelled as the empty string (both are falsy to the service's guards). -/
structure SuggestRequest where
  text : String
  articleId : Option String
  limit : Nat
  min_score : ℚ
  use_reranker : Option Bool
  widen : Bool
  exclude_slugs : List String
  cursor : Option String
  offset : Int

/-- Python `f"\x7bmin_score:.2f\x7d"`: fixed two-decimal rendering, with
the binary-float tie behaviour modelled as exact decimal
round-half-even.  (Python renders a negative value rounding to zero as
`-0.00`; no such value is used in this development.) -/
def format2f (q : ℚ) : String :=
  let scaled := pyRound2 q
  let a := scaled.natAbs
  let s := String.mk (natToChars (a / 100) ++ '.' ::
    [toHexDigit (a % 100 / 10), toHexDigit (a % 10)])
  if scaled < 0 then "-" ++ s else s

/-- `_cache_key` from `services/tags.py`: the fingerprint of the cached
pool.  Note which knobs are included — `articleId`, model, dimension,
text hash, `widen`, `min_score` — and which are not (`exclude_slugs`,
`limit`, `use_reranker`). -/
def cache_key (model : String) (dim : Nat) (text_hash : String)
    (widen : Bool) (min_score : ℚ) (articleId : String) : String :=
  "sug:" ++ articleId ++ ":" ++ model ++ ":" ++ String.mk (natToChars dim) ++
    ":" ++ text_hash ++ ":" ++ (if widen then "1" else "0") ++ ":" ++
    format2f min_score

/-- The Redis pool cache, modelled as an association list from keys to
already-parsed pools.  (`cache_set_json`/`cache_get_json` wrap the
values in two JSON layers; the serialization is elided since cached
pools round-trip through it unchanged.) -/
def PoolCache : Type := List (String × List Item)

/-- The response metadata assembled by `TagService.suggestTags`:
resolver metadata (absent when the pool came from the cache, since
`meta` stays `\x7b\x7d`) merged with pagination metadata. -/
structure PageMeta where
  resolver : Option SuggestMeta
  text_hash : String
  start : Int
  total : Nat
  has_more : Bool
  next_cursor : Option String
  model : String
  dim : Nat
deriving DecidableEq, Repr

/-- State held by a `TagService`: the suggester, the CMS article fetch
(`cms_service.fetch_article_content` composed with `article_text`,
an external collaborator), and `compute_text_hash` (NFKC
canonicalization followed by a SHA-1 hex digest, treated as one opaque
deterministic primitive). -/
structure TagServiceState where
  suggester : SuggesterState
  reloadSt : Unit → SuggesterState
  fetchArticleText : String → String
  textHash : String → String

/-- The article text resolved at the top of `suggestTags`: the request
text, or — when an `articleId` is present and the text is falsy — the
CMS-fetched article rendering. -/
def TagService.articleContent (svc : TagServiceState) (req : SuggestRequest) : String :=
  match req.articleId with
  | some aid => if req.text = "" then svc.fetchArticleText aid else req.text
  | none => req.text

/-- The `start_pos` / `key_from_cursor` pair: a falsy cursor is skipped;
a cursor that fails to decode is logged and ignored; a decoded cursor
supplies both the position and the pool key. -/
def cursorStartAndKey (req : SuggestRequest) : Int × Option String :=
  match req.cursor with
  | none => (req.offset, none)
  | some cur =>
    if cur = "" then (req.offset, none)
    else
      match decode_cursor cur with
      | none => (req.offset, none)
      | some kp => (kp.2, some kp.1)

/-- `emb_dim` as computed in `suggestTags`: the stored matrix's column
count, or 0 without a matrix (the suggester has no `dim` attribute, so
the `getattr` default is always taken). -/
def embDimOf (st : SuggesterState) : Nat :=
  match st.embeddings with
  | some E => (E.headD []).length
  | none => 0

/-- The freshly computed fingerprint key of a request. -/
def TagService.computedKey (svc : TagServiceState) (req : SuggestRequest)
    (content : String) : String :=
  cache_key svc.suggester.model_name (embDimOf svc.suggester)
    (svc.textHash content) req.widen req.min_score (req.articleId.getD "")

/-- `cache_key = key_from_cursor or _cache_key(...)`: a truthy decoded
cursor key pins the pool; otherwise the computed fingerprint is used. -/
def TagService.poolKey (svc : TagServiceState) (req : SuggestRequest)
    (content : String) : String :=
  match (cursorStartAndKey req).2 with
  | some kk =>
    if kk = "" then TagService.computedKey svc req content else kk
  | none => TagService.computedKey svc req content

/-- The `effective_min` threshold: `widen` relaxes `min_score` by 0.15,
floored at 0. -/
def effectiveMin (widen : Bool) (min_score : ℚ) : ℚ :=
  if widen then max 0 (min_score - 15/100) else min_score

/-- The fresh pool computed on a cache miss: the resolver's full
candidate list with the `exclude_slugs` filter applied (only when the
exclude set is non-empty), paired with the resolver metadata. -/
def TagService.freshPool (svc : TagServiceState) (req : SuggestRequest)
    (content : String) : List Item × SuggestMeta :=
  let res := TagSuggester.suggest svc.suggester svc.reloadSt content
    svc.suggester.cfg.TOPK_CANDIDATES (effectiveMin req.widen req.min_score)
    req.use_reranker
  let exclude_slugs := req.exclude_slugs.dedup
  (if exclude_slugs.isEmpty then res.1
   else res.1.filter (fun it => !(it.slug = "") && !decide (it.slug ∈ exclude_slugs)),
   res.2)

/-- The pagination step: window `\x5bstart, start+k)` clipped to the pool,
`has_more`, and a continuation token pointing at the window's end. -/
def finishPage (svc : TagServiceState) (content : String)
    (k : Nat) (start_pos : Int) (ckey : String)
    (pool : List Item) (resolver : Option SuggestMeta) :
    List Item × Option PageMeta :=
  let end_pos : Int := min (pool.length : Int) (start_pos + (k : Int))
  let has_more := end_pos < (pool.length : Int)
  (pySlice pool start_pos end_pos, some
    { resolver := resolver, text_hash := svc.textHash content, start := start_pos,
      total := pool.length, has_more := has_more,
      next_cursor := if has_more then some (encode_cursor ckey end_pos) else none,
      model := svc.suggester.model_name, dim := embDimOf svc.suggester })

/-- `TagService.suggestTags`.  Returns `(page, meta)`; `none` metadata
models the empty-dict `(\x5b\x5d, \x7b\x7d)` returns.  The final
`cache_set_json(..., ex=...)` call in the Python raises `TypeError`
(`cache_set_json` has no `ex` parameter), is caught by the surrounding
`except` and only logged, so nothing is ever stored and the cache is
not threaded through the result. -/
def TagService.suggestTags (svc : TagServiceState) (req : SuggestRequest)
    (cache : PoolCache) : List Item × Option PageMeta :=
  let content := TagService.articleContent svc req
  if content = "" then ([], none)
  else
    let k := if req.limit = 0 then 5 else req.limit
    let start_pos := (cursorStartAndKey req).1
    let ckey := TagService.poolKey svc req content
    match cache.lookup ckey with
    | some pool => finishPage svc content k start_pos ckey pool none
    | none =>
      let fp := TagService.freshPool svc req content
      finishPage svc content k start_pos ckey fp.1 (some fp.2)

end Service

section BuildPersist

/-!
The snapshot build / persistence logic of `tagger.py`
(`load`, `_cache_is_valid`, `_load_cache`, `_build_from_csv`,
`_save_cache`), modelled over an abstract file-system state.  The FAISS
branch is absent (the NumPy fallback engine is modelled; the FAISS
branch persists one extra index file but is otherwise identical).
Python exceptions escaping a call are modelled with `Except`; because
`np.save` runs before the exception point in `_save_cache`, the
file-system state is threaded alongside the error.
-/

/-- The tag catalog CSV as `pd.read_csv(dtype=str, keep_default_na=False)`
sees it: a header and string-valued rows.  `none` at the `TagFS` level
models a missing or unreadable file. -/
structure CsvData where
  cols : List String
  rows : List (String × String × String × String)
deriving DecidableEq, Repr

/-- The persisted metadata document `tags.json`. -/
structure MetaFile where
  tags : List TagRow
  tag_texts : List String
  csv_mtime : ℚ
  model : String
  dim : Nat
deriving DecidableEq, Repr

/-- Abstract persistent state: the catalog source and the two snapshot
files of the NumPy engine.  `embFile` stores an `Option` payload because
`np.save` happily pickles `None` (corrupting the snapshot).  `cacheMtime`
stands for the minimum modification time of the snapshot files compared
against `csvMtime` by `_cache_is_valid`. -/
structure TagFS where
  csv : Option CsvData
  csvMtime : ℚ
  embFile : Option (Option (List (List ℚ)))
  metaFile : Option MetaFile
  cacheMtime : ℚ
deriving Repr

/-- A cell access `r\x5b"col"\x5d` after `applymap(strip)`: whitespace-stripped
string. -/
def stripCell (s : String) : String := String.mk (pyStrip s.data)

/-- `TagSuggester._render_tag_text`: name, then description / `slug:` /
`url:` parts when truthy, joined by em-dashes, with an e5 `passage:`
prefix. -/
def render_tag_text (model_name : String) (t : TagRow) : String :=
  let parts := [t.name] ++
    (match t.description with
     | some d => if d = "" then [] else [d]
     | none => []) ++
    (if t.slug = "" then [] else ["slug:" ++ t.slug]) ++
    (match t.url with
     | some u => if u = "" then [] else ["url:" ++ u]
     | none => [])
  let text := String.mk (joinSep " — ".data (parts.map String.data))
  if hasE5 model_name then "passage: " ++ text else text

/-- `TagSuggester._build_from_csv`.  Every failure (missing file,
missing required column) is caught by the enclosing `try`, merely
printed, and leaves the in-memory state unchanged — the caller cannot
observe that the build failed. -/
def build_from_csv (st : SuggesterState) (fs : TagFS) : SuggesterState :=
  match fs.csv with
  | none => st
  | some data =>
    if ¬ ("name" ∈ data.cols ∧ "slug" ∈ data.cols ∧ "url" ∈ data.cols ∧
          "description" ∈ data.cols) then st
    else
      let stripped := data.rows.map (fun r =>
        (stripCell r.1, stripCell r.2.1, stripCell r.2.2.1, stripCell r.2.2.2))
      let kept := stripped.filter (fun r => !(r.1 = "") && !(r.2.1 = ""))
      let tags := kept.map (fun r =>
        { name := r.1, slug := r.2.1,
          url := if r.2.2.1 = "" then none else some r.2.2.1,
          description := none : TagRow })
      let tag_texts := tags.map (render_tag_text st.model_name)
      let texts := if st.cfg.NORMALIZE_ARABIC then tag_texts.map normalize_arabic
                   else tag_texts
      let X := texts.map st.embedQ
      { st with tags := tags, tag_texts := tag_texts, embeddings := some X }

/-- `TagSuggester._save_cache`: `np.save` always rewrites the embedding
file first (even when the in-memory embeddings are `None`); the
subsequent `json.dump` dereferences `self.embeddings.shape` and raises
`AttributeError` when they are `None`.  Returns the resulting
file-system state together with the escaping error, if any. -/
def save_cache (st : SuggesterState) (csv_mtime : ℚ) (fs : TagFS) :
    TagFS × Option String :=
  let fs1 := { fs with embFile := some st.embeddings }
  match st.embeddings with
  | none => (fs1, some "AttributeError: NoneType object has no attribute shape")
  | some E =>
    let meta : MetaFile :=
      { tags := st.tags, tag_texts := st.tag_texts, csv_mtime := csv_mtime,
        model := st.model_name, dim := (E.headD []).length }
    ({ fs1 with metaFile := some meta }, none)

/-- `TagSuggester._cache_is_valid` (NumPy engine: no index file). -/
def cache_is_valid (st : SuggesterState) (fs : TagFS) : Bool :=
  fs.embFile.isSome && fs.metaFile.isSome &&
  !decide (fs.cacheMtime < fs.csvMtime) &&
  (match fs.metaFile with
   | some meta => decide (meta.model = st.model_name)
   | none => false)

/-- `TagSuggester._load_cache` (NumPy branch): read the metadata and the
embedding matrix and rebuild the in-memory index.  `np.load` on an
embedding file that was corrupted with a pickled `None` raises
(`allow_pickle=False`). -/
def load_cache (st : SuggesterState) (fs : TagFS) : Except String SuggesterState :=
  match fs.metaFile, fs.embFile with
  | some meta, some (some E) =>
    Except.ok { st with tags := meta.tags, tag_texts := meta.tag_texts,
                        embeddings := some E }
  | some _, some none => Except.error "ValueError: np.load on pickled object array"
  | _, _ => Except.error "FileNotFoundError"

/-- `TagSuggester.load`: decide between reusing the persisted snapshot
and rebuilding; a rebuild is unconditionally followed by `_save_cache`.
Returns the file-system state (which a failed save may already have
modified) and either the new suggester state or the escaping
exception. -/
def TagSuggester.load (st : SuggesterState) (force_rebuild : Bool)
    (fs : TagFS) : TagFS × Except String SuggesterState :=
  let csv_mtime := if fs.csv.isSome then fs.csvMtime else 0
  if !force_rebuild && cache_is_valid st fs then
    (fs, load_cache st fs)
  else
    let st1 := build_from_csv st fs
    match save_cache st1 csv_mtime fs with
    | (fs1, none) => (fs1, Except.ok st1)
    | (fs1, some e) => (fs1, Except.error e)

end BuildPersist

section SpecSide

/-- Modelled from the spec (§4.2, step 8): "Truncate to the full
shortlist (not yet to `limit`) ... this method returns the entire
scored shortlist as the candidate pool."  This is the resolver pipeline
of `TagSuggester.suggest` with no final `items\x5b:k\x5d` truncation; the
refinement theorem for C3 shows the code's truncation never drops
anything, i.e. `suggest` returns exactly this pool. -/
def specResolverPool (st : SuggesterState) (reloadSt : Unit → SuggesterState)
    (text : String) (k : Nat) (min_score : ℚ) (use_reranker : Option Bool) :
    List Item :=
  let text_proc := preprocess_text st.cfg st.translit text
  let qv0 := st.embedQ (queryString st.model_name text_proc)
  let mismatch :=
    match st.embeddings with
    | none => true
    | some E => qv0.length ≠ (E.headD []).length
  let st1 := if mismatch then reloadSt () else st
  let qv := if mismatch then st1.embedQ (queryString st1.model_name text_proc) else qv0
  let kc := max 1 (min k st1.tags.length)
  let use_ce :=
    match use_reranker with
    | none => st1.cfg.USE_CROSS_ENCODER
    | some b => b
  resolverItems st1 text_proc qv kc min_score use_ce

end SpecSide

section Fixtures

/-- A minimal settings record used by the concrete witnesses and
counterexamples. -/
def demoCfg : AppSettings :=
  { EMBEDDING_MODEL := "m", NORMALIZE_ARABIC := false,
    USE_CROSS_ENCODER := false, CROSS_ENCODER_MODEL := "ce-model",
    TAGS_CSV := "tags.csv", TOPK_CANDIDATES := 100,
    CACHE_TTL_SECONDS := 300, faissAvailable := false }

def tagSports : TagRow :=
  { name := "Sports", slug := "sports", url := none, description := none }

def tagTech : TagRow :=
  { name := "Technology", slug := "tech", url := none, description := none }

/-- A two-tag suggester over unit-normalized 2-dimensional embeddings:
the query embeds to `\x5b1, 0\x5d`, `sports` to `\x5b1, 0\x5d` (similarity 1) and
`tech` to `\x5b3/5, 4/5\x5d` (similarity 3/5). -/
def demoSt : SuggesterState :=
  { cfg := demoCfg, model_name := "m", embedQ := fun _ => [1, 0],
    translit := fun s => s, cross_encoder := none,
    tags := [tagSports, tagTech],
    tag_texts := ["Sports — slug:sports", "Technology — slug:tech"],
    embeddings := some [[1, 0], [3/5, 4/5]] }

def demoReload : Unit → SuggesterState := fun _ => demoSt

def demoSvc : TagServiceState :=
  { suggester := demoSt, reloadSt := demoReload,
    fetchArticleText := fun _ => "", textHash := fun _ => "H" }

/-- A cached pool item carrying the excluded slug. -/
def itemTech : Item :=
  { slug := "tech", name := "Technology", url := none, description := "",
    score := 1, reason := "r" }

def mkDemoItem (s n : String) : Item :=
  { slug := s, name := n, url := none, description := "", score := 1, reason := "r" }

/-- The fresh-pool item the demo suggester produces for the `sports`
tag (no lexical overlap with the query, hybrid score 0.8·1). -/
def itemSportsFresh : Item :=
  { slug := "sports", name := "Sports", url := none, description := "",
    score := 4/5, reason := "Semantic similarity to tag description" }

/-- C1 request: non-empty exclude set, no cursor. -/
def reqC1 : SuggestRequest :=
  { text := "hello", articleId := none, limit := 5, min_score := 2/5,
    use_reranker := none, widen := false, exclude_slugs := ["tech"],
    cursor := none, offset := 0 }

/-- A cache that already holds a pool (containing `tech`) under exactly
the fingerprint key `suggestTags` computes for `reqC1`. -/
def cacheC1 : PoolCache := [("sug::m:2:H:0:0.40", [itemTech])]

/-- C7 request: an undecodable cursor together with an explicit
`offset = 3`. -/
def reqC7 : SuggestRequest :=
  { text := "hello", articleId := none, limit := 2, min_score := 2/5,
    use_reranker := none, widen := false, exclude_slugs := [],
    cursor := some "***", offset := 3 }

def cacheC7 : PoolCache :=
  [("sug::m:2:H:0:0.40",
    [mkDemoItem "a" "A", mkDemoItem "b" "B", mkDemoItem "c" "C",
     mkDemoItem "d" "D", mkDemoItem "e" "E"])]

/-- C4 request: genuinely empty text and no article id. -/
def reqC4 : SuggestRequest :=
  { text := "", articleId := none, limit := 5, min_score := 2/5,
    use_reranker := none, widen := false, exclude_slugs := [],
    cursor := none, offset := 0 }

/-- C5: a fresh suggester (no prior in-memory build). -/
def stFresh : SuggesterState :=
  { cfg := demoCfg, model_name := "m", embedQ := fun _ => [1, 0],
    translit := fun s => s, cross_encoder := none,
    tags := [], tag_texts := [], embeddings := none }

/-- C5: the metadata document of a previously published snapshot. -/
def metaPrior : MetaFile :=
  { tags := [tagSports], tag_texts := ["Sports — slug:sports"],
    csv_mtime := 5, model := "m", dim := 2 }

/-- C5: persistent state with a valid prior snapshot but a catalog CSV
that has gone missing. -/
def fsPrior : TagFS :=
  { csv := none, csvMtime := 0, embFile := some (some [[1, 0]]),
    metaFile := some metaPrior, cacheMtime := 5 }

/-- C5: a suggester still holding the prior build in memory. -/
def stPrior : SuggesterState :=
  { cfg := demoCfg, model_name := "m", embedQ := fun _ => [1, 0],
    translit := fun s => s, cross_encoder := none,
    tags := [tagSports], tag_texts := ["Sports — slug:sports"],
    embeddings := some [[1, 0]] }

/-- C8: a one-tag suggester whose only tag has raw similarity -1 to the
demo query embedding. -/
def stC8 : SuggesterState :=
  { cfg := demoCfg, model_name := "m", embedQ := fun _ => [1, 0],
    translit := fun s => s, cross_encoder := none,
    tags := [tagTech], tag_texts := ["Technology — slug:tech"],
    embeddings := some [[-1, 0]] }

def svcC8 : TagServiceState :=
  { suggester := stC8, reloadSt := fun _ => stC8,
    fetchArticleText := fun _ => "", textHash := fun _ => "H" }

/-- C8 counterexample request: the schema minimum `min_score = -1`
(the `SuggestRequest` model allows `min_score` from -1.0 to 1.0). -/
def reqC8 : SuggestRequest :=
  { text := "hello", articleId := none, limit := 5, min_score := -1,
    use_reranker := none, widen := false, exclude_slugs := [],
    cursor := none, offset := 0 }

/-- C8 witness request: a non-negative `min_score`. -/
def reqC8w : SuggestRequest :=
  { text := "hello", articleId := none, limit := 5, min_score := 1/2,
    use_reranker := none, widen := false, exclude_slugs := [],
    cursor := none, offset := 0 }


end Fixtures

section HelperLemmas

/-- Members of a Python slice are members of the sliced list. -/
theorem mem_pySlice {α : Type} {l : List α} {a b : Int} {x : α}
    (h : x ∈ pySlice l a b) : x ∈ l := by
  unfold pySlice at h
  exact (List.take_sublist _ _).subset ((List.drop_sublist _ _).subset h)

/-- Items of a freshly computed pool never carry an excluded slug. -/
theorem freshPool_not_excluded {svc : TagServiceState} {req : SuggestRequest}
    {content : String} {it : Item}
    (h : it ∈ (TagService.freshPool svc req content).1) :
    it.slug ∉ req.exclude_slugs := by
  simp only [TagService.freshPool] at h
  by_cases hex : req.exclude_slugs.dedup.isEmpty
  · have hnil : req.exclude_slugs = [] := by
      rw [List.isEmpty_iff] at hex
      exact (List.dedup_eq_nil _).mp hex
    simp [hnil]
  · rw [if_neg hex] at h
    have h2 := (List.mem_filter.mp h).2
    rw [Bool.and_eq_true] at h2
    intro hmem
    have : decide (it.slug ∈ req.exclude_slugs.dedup) = true :=
      decide_eq_true (List.mem_dedup.mpr hmem)
    rw [this] at h2
    exact absurd h2.2 (by decide)


theorem insertStrict_perm {α : Type} (lt : α → α → Bool) (a : α) (l : List α) :
    (insertStrict lt a l).Perm (a :: l) := by
  induction l with
  | nil => exact List.Perm.refl _
  | cons b t ih =>
    unfold insertStrict
    split
    · exact List.Perm.refl _
    · exact (ih.cons b).trans (List.Perm.swap a b t)

theorem sortStrict_perm {α : Type} (lt : α → α → Bool) (l : List α) :
    (sortStrict lt l).Perm l := by
  induction l with
  | nil => exact List.Perm.refl _
  | cons a t ih =>
    unfold sortStrict
    exact (insertStrict_perm lt a (sortStrict lt t)).trans (ih.cons a)

theorem sortStrict_length {α : Type} (lt : α → α → Bool) (l : List α) :
    (sortStrict lt l).length = l.length :=
  (sortStrict_perm lt l).length_eq

theorem insertStrict_pairwise {α : Type} (lt : α → α → Bool)
    (hasymm : ∀ x y, lt x y = true → lt y x = false)
    (htrans : ∀ x y z, lt x y = true → lt y z = true → lt x z = true)
    (a : α) (l : List α) (hl : l.Pairwise (fun x y => lt y x = false)) :
    (insertStrict lt a l).Pairwise (fun x y => lt y x = false) := by
  induction l with
  | nil => simp [insertStrict]
  | cons b t ih =>
    rw [List.pairwise_cons] at hl
    unfold insertStrict
    split
    · next hab =>
      rw [List.pairwise_cons]
      constructor
      · intro x hx
        rcases List.mem_cons.mp hx with rfl | hx
        · exact hasymm _ _ hab
        · rcases hxb : lt x b with _ | _
          · rcases hxa : lt x a with _ | _
            · rfl
            · exfalso
              have := htrans x a b hxa hab
              rw [this] at hxb
              cases hxb
          · exfalso
            rw [hl.1 x hx] at hxb
            cases hxb
      · exact List.pairwise_cons.mpr hl
    · next hab =>
      rw [List.pairwise_cons]
      refine ⟨?_, ih hl.2⟩
      intro x hx
      have hmem : x = a ∨ x ∈ t := by
        have hp := (insertStrict_perm lt a t).mem_iff.mp hx
        simpa using hp
      rcases hmem with rfl | hx2
      · simpa using hab
      · exact hl.1 x hx2

theorem sortStrict_pairwise {α : Type} (lt : α → α → Bool)
    (hasymm : ∀ x y, lt x y = true → lt y x = false)
    (htrans : ∀ x y z, lt x y = true → lt y z = true → lt x z = true)
    (l : List α) :
    (sortStrict lt l).Pairwise (fun x y => lt y x = false) := by
  induction l with
  | nil => simp [sortStrict]
  | cons a t ih =>
    unfold sortStrict
    exact insertStrict_pairwise lt hasymm htrans a _ ih

theorem searchTopK_length (E : List (List ℚ)) (qv : List ℚ) (k : Nat) :
    (searchTopK E qv k).length = min k E.length := by
  unfold searchTopK
  rw [List.length_take, sortStrict_length, List.length_map, List.enum_length]

theorem searchTopK_snd_nodup (E : List (List ℚ)) (qv : List ℚ) (k : Nat) :
    ((searchTopK E qv k).map Prod.snd).Nodup := by
  unfold searchTopK
  have hperm : ((sortStrict hitLt (E.enum.map (fun p => (dot qv p.2, p.1)))).map Prod.snd).Perm
      ((E.enum.map (fun p => (dot qv p.2, p.1))).map Prod.snd) :=
    (sortStrict_perm _ _).map _
  have heq : (E.enum.map (fun p => (dot qv p.2, p.1))).map Prod.snd =
      E.enum.map Prod.fst := by
    rw [List.map_map]
    rfl
  have hnodup : ((sortStrict hitLt (E.enum.map (fun p => (dot qv p.2, p.1)))).map Prod.snd).Nodup := by
    rw [hperm.nodup_iff, heq, List.enum_map_fst]
    exact List.nodup_range _
  exact hnodup.sublist ((List.take_sublist _ _).map _)

theorem filterMap_sublist_mono {α β : Type} (f g : α → Option β)
    (h : ∀ a b, f a = some b → g a = some b) (l : List α) :
    (l.filterMap f).Sublist (l.filterMap g) := by
  induction l with
  | nil => exact List.Sublist.refl _
  | cons a t ih =>
    rw [List.filterMap_cons, List.filterMap_cons]
    cases hfa : f a with
    | none =>
      cases g a with
      | none => exact ih
      | some c => exact ih.cons c
    | some b =>
      rw [h a b hfa]
      exact ih.cons₂ b

theorem shortlistItems_length_le (st : SuggesterState) (tp : String)
    (sl : List (ℚ × Nat)) (ms : ℚ) :
    (shortlistItems st tp sl ms).length ≤ sl.length :=
  List.length_filterMap_le _ _

theorem rerank_length (st : SuggesterState) (q : String) (items : List Item) :
    (rerank_with_cross_encoder st q items).length = items.length := by
  unfold rerank_with_cross_encoder
  cases st.cross_encoder with
  | none => rfl
  | some ce => rw [sortStrict_length, List.length_map]

theorem length_ite_le {α : Type} {c : Prop} [Decidable c] {l1 l2 : List α} {n : Nat}
    (h1 : l1.length ≤ n) (h2 : l2.length ≤ n) : (if c then l1 else l2).length ≤ n := by
  split <;> assumption

theorem resolverItems_length_le (st1 : SuggesterState) (tp : String) (qv : List ℚ)
    (kc : Nat) (ms : ℚ) (g : Bool) (hkc : 1 ≤ kc) :
    (resolverItems st1 tp qv kc ms g).length ≤ kc := by
  unfold resolverItems
  dsimp only
  have hsl : (searchTopK (st1.embeddings.getD []) qv (min 100 (max kc 1))).length ≤ kc := by
    rw [searchTopK_length]
    omega
  have hit := shortlistItems_length_le st1 tp
    (searchTopK (st1.embeddings.getD []) qv (min 100 (max kc 1))) ms
  exact length_ite_le (by rw [rerank_length]; omega) (by omega)

/-- The resolver's final `items\x5b:k\x5d` never drops anything: the filtered
(and possibly reranked) shortlist is always at most `kc` long. -/
theorem suggest_no_truncation (st : SuggesterState) (reloadSt : Unit → SuggesterState)
    (text : String) (k : Nat) (ms : ℚ) (ur : Option Bool) :
    (TagSuggester.suggest st reloadSt text k ms ur).1 =
      specResolverPool st reloadSt text k ms ur := by
  unfold TagSuggester.suggest specResolverPool
  dsimp only
  exact List.take_of_length_le (resolverItems_length_le _ _ _ _ _ _ (by omega))

/-- Lowering the `min_score` threshold only ever adds shortlist items:
the stricter pool is a sublist of the laxer one. -/
theorem shortlistItems_sublist (st : SuggesterState) (tp : String)
    (sl : List (ℚ × Nat)) {ms ms' : ℚ} (h : ms' ≤ ms) :
    (shortlistItems st tp sl ms).Sublist (shortlistItems st tp sl ms') := by
  unfold shortlistItems
  apply filterMap_sublist_mono
  intro si b hb
  dsimp only at hb ⊢
  cases hget : st.tags.get? si.2 with
  | none =>
    rw [hget] at hb
    simp at hb
  | some tag =>
    rw [hget] at hb
    dsimp only at hb ⊢
    by_cases h1 : tag.slug = "" ∨ tag.name = ""
    · rw [if_pos h1] at hb
      exact absurd hb (by simp)
    · rw [if_neg h1] at hb ⊢
      by_cases h2 : si.1 < ms
      · rw [if_pos h2] at hb
        exact absurd hb (by simp)
      · rw [if_neg h2] at hb
        rw [if_neg (fun hlt => h2 (lt_of_lt_of_le hlt h))]
        exact hb

/-- `countP` of a conditional list, from its two branches. -/
theorem countP_ite_eq {α : Type} {c : Prop} [Decidable c] {l1 l2 : List α}
    {p : α → Bool} {n : Nat}
    (h1 : l1.countP p = n) (h2 : l2.countP p = n) :
    (if c then l1 else l2).countP p = n := by
  split <;> assumption

/-- Reranking never changes the count of items satisfying a score-blind
predicate. -/
theorem rerank_countP (st : SuggesterState) (q : String) (items : List Item)
    (p : Item → Bool) (hp : ∀ it s, p { it with score := s } = p it) :
    (rerank_with_cross_encoder st q items).countP p = items.countP p := by
  unfold rerank_with_cross_encoder
  cases st.cross_encoder with
  | none => rfl
  | some ce =>
    rw [List.Perm.countP_eq p (sortStrict_perm _ _), List.countP_map]
    refine List.countP_congr (fun it _ => ?_)
    simp only [Function.comp_apply]
    rw [hp]

/-- The rerank gate never changes the count of items satisfying a
score-blind predicate: `resolverItems` counts what the filtered
shortlist counts. -/
theorem resolverItems_countP (st1 : SuggesterState) (tp : String) (qv : List ℚ)
    (kc : Nat) (ms : ℚ) (g : Bool) (p : Item → Bool)
    (hp : ∀ it s, p { it with score := s } = p it) :
    (resolverItems st1 tp qv kc ms g).countP p
      = (shortlistItems st1 tp
          (searchTopK (st1.embeddings.getD []) qv (min 100 (max kc 1))) ms).countP p := by
  unfold resolverItems
  dsimp only
  exact countP_ite_eq (rerank_countP st1 tp _ p hp) rfl

/-- Raising the threshold only removes items: monotonicity of the
(vacuously truncated) resolver list under a score-blind predicate
count. -/
theorem resolverItems_take_countP_mono (st1 : SuggesterState) (tp : String)
    (qv : List ℚ) (kc : Nat) {ms ms' : ℚ} (hkc : 1 ≤ kc) (h : ms' ≤ ms)
    (g : Bool) (p : Item → Bool)
    (hp : ∀ it s, p { it with score := s } = p it) :
    ((resolverItems st1 tp qv kc ms g).take kc).countP p
      ≤ ((resolverItems st1 tp qv kc ms' g).take kc).countP p := by
  rw [List.take_of_length_le (resolverItems_length_le st1 tp qv kc ms g hkc),
    List.take_of_length_le (resolverItems_length_le st1 tp qv kc ms' g hkc),
    resolverItems_countP st1 tp qv kc ms g p hp,
    resolverItems_countP st1 tp qv kc ms' g p hp]
  exact (shortlistItems_sublist st1 tp _ h).countP_le p

/-- `TagSuggester.suggest` is monotone in `min_score` for score-blind
predicate counts over the returned pool. -/
theorem suggest_countP_mono (st : SuggesterState) (reloadSt : Unit → SuggesterState)
    (text : String) (k : Nat) {ms ms' : ℚ} (h : ms' ≤ ms) (ur : Option Bool)
    (p : Item → Bool) (hp : ∀ it s, p { it with score := s } = p it) :
    ((TagSuggester.suggest st reloadSt text k ms ur).1.countP p)
      ≤ ((TagSuggester.suggest st reloadSt text k ms' ur).1.countP p) := by
  unfold TagSuggester.suggest
  dsimp only
  exact resolverItems_take_countP_mono _ _ _ _ (by omega) h _ _ hp

/-- The length of a fresh pool, as a score-blind predicate count over
the resolver result. -/
theorem freshPool_length_countP (svc : TagServiceState) (req : SuggestRequest)
    (content : String) :
    (TagService.freshPool svc req content).1.length
      = ((TagSuggester.suggest svc.suggester svc.reloadSt content
            svc.suggester.cfg.TOPK_CANDIDATES (effectiveMin req.widen req.min_score)
            req.use_reranker).1.countP
          (fun it => if req.exclude_slugs.dedup.isEmpty then true
            else !(it.slug = "") && !decide (it.slug ∈ req.exclude_slugs.dedup))) := by
  unfold TagService.freshPool
  dsimp only
  by_cases hex : req.exclude_slugs.dedup.isEmpty = true
  · rw [if_pos hex]
    have hp : (fun it : Item => if req.exclude_slugs.dedup.isEmpty then true
        else !(it.slug = "") && !decide (it.slug ∈ req.exclude_slugs.dedup))
        = fun _ : Item => true := by
      funext it
      rw [if_pos hex]
    rw [hp, List.countP_true]
  · rw [if_neg hex]
    have hp : (fun it : Item => if req.exclude_slugs.dedup.isEmpty then true
        else !(it.slug = "") && !decide (it.slug ∈ req.exclude_slugs.dedup))
        = fun it : Item => !(it.slug = "") && !decide (it.slug ∈ req.exclude_slugs.dedup) := by
      funext it
      rw [if_neg hex]
    rw [hp, List.countP_eq_length_filter]


end HelperLemmas

section ClaimC1

/-- C1 (counterexample).  The claim says no candidate with an excluded
slug ever appears in the returned page, "regardless of whether the pool
is served from cache or freshly computed".  False: the fingerprint key
does not encode `exclude_slugs`, and a cache hit serves the stored pool
without re-applying the exclude filter.  Concretely, with a pool
containing `tech` already cached under the very key computed for the
request, a request excluding `tech` still returns it. -/
theorem C1_counterexample :
    cacheC1.lookup (TagService.poolKey demoSvc reqC1
      (TagService.articleContent demoSvc reqC1)) = some [itemTech] ∧
    (TagService.suggestTags demoSvc reqC1 cacheC1).1 = [itemTech] ∧
    itemTech.slug ∈ reqC1.exclude_slugs :=
  ⟨by with_unfolding_all rfl, by with_unfolding_all rfl, by decide⟩

/-- C1 (amended): the exclude set is applied only to freshly computed
pools (cache misses) before the cache write is attempted; on a miss, no
item of the returned page carries an excluded slug.  (On a hit the
cached pool is served as stored.) -/
theorem C1_no_excluded_slug_on_miss
    (svc : TagServiceState) (req : SuggestRequest) (cache : PoolCache)
    (hmiss : cache.lookup (TagService.poolKey svc req
      (TagService.articleContent svc req)) = none)
    {it : Item} (h : it ∈ (TagService.suggestTags svc req cache).1) :
    it.slug ∉ req.exclude_slugs := by
  by_cases hc : TagService.articleContent svc req = ""
  · simp [TagService.suggestTags, hc] at h
  · simp only [TagService.suggestTags, hmiss, if_neg hc] at h
    exact freshPool_not_excluded (mem_pySlice h)

/-- C1 (witness): the amended theorem applied at a concrete miss. -/
theorem C1_no_excluded_slug_on_miss_witness :
    itemSportsFresh.slug ∉ reqC1.exclude_slugs :=
  @C1_no_excluded_slug_on_miss demoSvc reqC1 [] (by with_unfolding_all rfl)
    itemSportsFresh (by with_unfolding_all decide)

end ClaimC1

section ClaimC4

/-- C4 (counterexample).  The claim says an input whose *preprocessed*
text is empty resolves to an empty pool.  False: `suggest` has no guard
on the preprocessed text — the empty string is embedded and searched
like any other, and candidates clearing `min_score` are returned.
Concretely, `"!!!"` preprocesses to `""` yet returns both demo tags. -/
theorem C4_counterexample :
    preprocess_text demoCfg (fun s => s) "!!!" = "" ∧
    (TagSuggester.suggest demoSt demoReload "!!!" 5 0 none).1 ≠ [] :=
  ⟨rfl, by with_unfolding_all decide⟩

/-- C4 (amended): the empty-input guard lives in the service layer and
keys on the *raw* article content: when the resolved article content is
empty, `suggestTags` returns an empty page and empty metadata with no
error.  (An input with empty *preprocessed* text but non-empty raw text
is still embedded and searched, and may return a non-empty pool.) -/
theorem C4_empty_content_empty_page
    (svc : TagServiceState) (req : SuggestRequest) (cache : PoolCache)
    (h : TagService.articleContent svc req = "") :
    TagService.suggestTags svc req cache = ([], none) := by
  simp [TagService.suggestTags, h]

/-- C4 (witness): the amended theorem at a concrete empty request. -/
theorem C4_empty_content_empty_page_witness :
    TagService.suggestTags demoSvc reqC4 [] = ([], none) :=
  C4_empty_content_empty_page demoSvc reqC4 [] rfl

end ClaimC4

section ClaimC5

/-- C5 (code bug).  The spec/claim: a missing or unreadable catalog
source makes the build fail with a descriptive error, publishes no
snapshot, and leaves the previously persisted snapshot untouched.  The
code instead swallows the `FileNotFoundError` inside `_build_from_csv`
(it only prints) and then unconditionally runs `_save_cache`:

* with no prior in-memory build, `np.save` first overwrites the
  persisted embedding file with a pickled `None` and `json.dump` then
  crashes with `AttributeError` (conjuncts 1–3);
* with a prior in-memory build, `load` returns successfully — no error
  signal at all — and rewrites the persisted metadata (a fresh
  `csv_mtime`), so the prior snapshot files do not survive unchanged
  (conjuncts 4–5). -/
theorem C5_failed_build_rewrites_snapshot :
    (TagSuggester.load stFresh true fsPrior).2 =
      Except.error "AttributeError: NoneType object has no attribute shape" ∧
    (TagSuggester.load stFresh true fsPrior).1.embFile = some none ∧
    fsPrior.embFile = some (some [[1, 0]]) ∧
    (TagSuggester.load stPrior true fsPrior).2 = Except.ok stPrior ∧
    (TagSuggester.load stPrior true fsPrior).1.metaFile ≠ fsPrior.metaFile := by
  refine ⟨?_, ?_, rfl, ?_, ?_⟩
  · unfold TagSuggester.load
    with_unfolding_all rfl
  · unfold TagSuggester.load
    with_unfolding_all rfl
  · unfold TagSuggester.load
    with_unfolding_all rfl
  · intro h
    have h2 : ((TagSuggester.load stPrior true fsPrior).1.metaFile.map MetaFile.csv_mtime) =
        fsPrior.metaFile.map MetaFile.csv_mtime := by rw [h]
    have h3 : ((TagSuggester.load stPrior true fsPrior).1.metaFile.map MetaFile.csv_mtime) =
        some 0 := by
      unfold TagSuggester.load
      with_unfolding_all rfl
    have h4 : fsPrior.metaFile.map MetaFile.csv_mtime = some 5 := rfl
    rw [h3, h4] at h2
    exact absurd (Option.some.inj h2) (by norm_num)

end ClaimC5

section ClaimC7

/-- C7 (counterexample).  The claim says an undecodable cursor makes
resolution fall back to offset-based paging "from position 0".  False:
the fallback keeps the request's explicit `offset`.  Concretely, with a
bad cursor and `offset = 3` over a cached five-item pool, the serving
window starts at position 3, not 0. -/
theorem C7_counterexample :
    decode_cursor "***" = none ∧
    reqC7.cursor = some "***" ∧
    reqC7.offset = 3 ∧
    (TagService.suggestTags demoSvc reqC7 cacheC7).1 =
      [mkDemoItem "d" "D", mkDemoItem "e" "E"] ∧
    ((TagService.suggestTags demoSvc reqC7 cacheC7).2.map PageMeta.start) = some 3 ∧
    (3 : Int) ≠ 0 :=
  ⟨rfl, rfl, rfl, by with_unfolding_all rfl, by with_unfolding_all rfl, by decide⟩

/-- C7 (amended): a cursor that fails to decode is treated exactly as an
absent cursor — no error is raised, the freshly computed fingerprint key
is used, and paging falls back to the request's explicit offset (which
defaults to 0). -/
theorem C7_bad_cursor_ignored
    (svc : TagServiceState) (req : SuggestRequest) (cache : PoolCache)
    (cur : String) (hc : req.cursor = some cur)
    (hdec : decode_cursor cur = none) :
    TagService.suggestTags svc req cache =
      TagService.suggestTags svc { req with cursor := none } cache := by
  have h1 : cursorStartAndKey req = (req.offset, none) := by
    unfold cursorStartAndKey
    rw [hc]
    by_cases he : cur = ""
    · simp [he]
    · simp [he, hdec]
  have h2 : cursorStartAndKey { req with cursor := none } = (req.offset, none) := rfl
  simp only [TagService.suggestTags, TagService.articleContent, TagService.poolKey,
    TagService.computedKey, TagService.freshPool, finishPage, h1, h2]

/-- C7 (witness): the amended theorem at the concrete bad-cursor
request. -/
theorem C7_bad_cursor_ignored_witness :
    TagService.suggestTags demoSvc reqC7 cacheC7 =
      TagService.suggestTags demoSvc { reqC7 with cursor := none } cacheC7 :=
  C7_bad_cursor_ignored demoSvc reqC7 cacheC7 "***" rfl rfl

end ClaimC7

section ClaimC10

/-- C10: `_decode_cursor` is total — for every input string it returns
either a decoded `(key, position)` pair or `None`, never an escaping
exception: the blanket `except` collapses every failure stage to `None`.
The conjuncts also pin down three failure modes: input that is not
base64 (decodes to the empty byte string, which is not JSON), valid
base64 of bytes that are not JSON, and valid JSON lacking the expected
fields. -/
theorem C10_decode_cursor_total :
    (∀ s : String, decode_cursor s = none ∨
      ∃ k p, decode_cursor s = some (k, p)) ∧
    decode_cursor "!!!" = none ∧
    decode_cursor "aGVsbG8=" = none ∧
    decode_cursor (String.mk (urlsafeB64Encode
      (utf8Encode "\x7b\"a\": 1\x7d".data))) = none := by
  refine ⟨fun s => ?_, rfl, rfl, rfl⟩
  cases h : decode_cursor s with
  | none => exact Or.inl rfl
  | some kp =>
    obtain ⟨k, p⟩ := kp
    exact Or.inr ⟨k, p, rfl⟩


end ClaimC10

section ClaimC2

/-- C2 (counterexample).  The claim: the hybrid score is computed first
and the `min_score` filter is applied to it, so every pooled candidate
has hybrid score at least the effective `min_score`.  False: the code
filters on the raw similarity score *before* hybrid rescoring.
Concretely, with `min_score = 0.5` and no widen, a candidate with raw
similarity 3/5 (≥ 0.5) but no lexical overlap is admitted with stored
hybrid score 0.8·(3/5) = 12/25 < 0.5. -/
theorem C2_counterexample :
    ((TagSuggester.suggest demoSt demoReload "zzzz" 5 (1/2) none).1.map
      (fun it => it.score)) = [4/5, 12/25] ∧
    (12 : ℚ)/25 < 1/2 ∧
    effectiveMin false (1/2) = 1/2 :=
  ⟨by with_unfolding_all rfl, by norm_num, by with_unfolding_all rfl⟩

/-- C2 (amended): the `min_score` filter is applied to the raw
similarity score, before hybrid rescoring: dropping the raw hits below
`min_score` from the search shortlist changes nothing, and every pooled
candidate stems from a raw hit scoring at least `min_score`, its stored
score being the rounded hybrid score of that raw hit (which may itself
fall below `min_score`). -/
theorem C2_raw_score_filter :
    (∀ (st : SuggesterState) (tp : String) (sl : List (ℚ × Nat)) (ms : ℚ),
      shortlistItems st tp sl ms
        = shortlistItems st tp (sl.filter (fun si => decide (ms ≤ si.1))) ms) ∧
    (∀ (st : SuggesterState) (tp : String) (sl : List (ℚ × Nat)) (ms : ℚ)
        (it : Item), it ∈ shortlistItems st tp sl ms →
      ∃ si, si ∈ sl ∧ ms ≤ si.1 ∧
        it.score = pyRound4 (hybrid_score tp (st.tag_texts.getD si.2 "") si.1)) := by
  constructor
  · intro st tp sl ms
    unfold shortlistItems
    induction sl with
    | nil => rfl
    | cons a t ih =>
      rw [List.filter_cons]
      by_cases hk : ms ≤ a.1
      · rw [if_pos (decide_eq_true hk), List.filterMap_cons, List.filterMap_cons, ih]
      · rw [if_neg (by simpa using hk), List.filterMap_cons]
        dsimp only
        cases hget : st.tags.get? a.2 with
        | none =>
          rw [ih]
        | some tag =>
          dsimp only
          by_cases h1 : tag.slug = "" ∨ tag.name = ""
          · rw [if_pos h1, ih]
          · rw [if_neg h1, if_pos (lt_of_not_le hk), ih]
  · intro st tp sl ms it hmem
    unfold shortlistItems at hmem
    rw [List.mem_filterMap] at hmem
    obtain ⟨si, hsi, hf⟩ := hmem
    dsimp only at hf
    cases hget : st.tags.get? si.2 with
    | none =>
      rw [hget] at hf
      simp at hf
    | some tag =>
      rw [hget] at hf
      dsimp only at hf
      by_cases h1 : tag.slug = "" ∨ tag.name = ""
      · rw [if_pos h1] at hf
        simp at hf
      · rw [if_neg h1] at hf
        by_cases h2 : si.1 < ms
        · rw [if_pos h2] at hf
          simp at hf
        · rw [if_neg h2] at hf
          refine ⟨si, hsi, le_of_not_lt h2, ?_⟩
          rw [← Option.some.inj hf]


end ClaimC2


section ClaimC6

theorem b64StdVal_translate_charOfVal_fin : ∀ v : Fin 64,
    b64StdVal (b64Translate (b64CharOfVal v.val)) = some v.val := by decide

theorem b64KeepChar_translate_charOfVal_fin : ∀ v : Fin 64,
    b64KeepChar (b64Translate (b64CharOfVal v.val)) = true := by decide

theorem b64Translate_charOfVal_ne_eq_fin : ∀ v : Fin 64,
    ¬ (b64Translate (b64CharOfVal v.val) = '=') := by decide

theorem b64StdVal_translate_charOfVal (v : Nat) (h : v < 64) :
    b64StdVal (b64Translate (b64CharOfVal v)) = some v := by
  simpa using b64StdVal_translate_charOfVal_fin ⟨v, h⟩

theorem b64KeepChar_translate_charOfVal (v : Nat) (h : v < 64) :
    b64KeepChar (b64Translate (b64CharOfVal v)) = true := by
  simpa using b64KeepChar_translate_charOfVal_fin ⟨v, h⟩

theorem b64Translate_charOfVal_ne_eq (v : Nat) (h : v < 64) :
    ¬ (b64Translate (b64CharOfVal v) = '=') := by
  simpa using b64Translate_charOfVal_ne_eq_fin ⟨v, h⟩

theorem b64Translate_eq : b64Translate '=' = '=' := by decide

theorem b64KeepChar_eq : b64KeepChar '=' = true := by decide

theorem b64KeepChar_translate_pad : b64KeepChar (b64Translate '=') = true := by decide


theorem b64DecodeQuads_step (v1 v2 v3 v4 : Nat)
    (h1 : v1 < 64) (h2 : v2 < 64) (h3 : v3 < 64) (h4 : v4 < 64)
    (tail : List Char) :
    b64DecodeQuads (b64Translate (b64CharOfVal v1) :: b64Translate (b64CharOfVal v2) ::
        b64Translate (b64CharOfVal v3) :: b64Translate (b64CharOfVal v4) :: tail) =
      (b64DecodeQuads tail).map
        (fun bs => (v1 * 4 + v2 / 16) :: (v2 % 16 * 16 + v3 / 4) :: (v3 % 4 * 64 + v4) :: bs) := by
  rw [b64DecodeQuads]
  rw [b64StdVal_translate_charOfVal v1 h1, b64StdVal_translate_charOfVal v2 h2,
      b64StdVal_translate_charOfVal v3 h3, b64StdVal_translate_charOfVal v4 h4]
  dsimp only
  rw [if_neg (b64Translate_charOfVal_ne_eq v3 h3), if_neg (b64Translate_charOfVal_ne_eq v4 h4)]

theorem b64DecodeQuads_pad2 (v1 v2 : Nat) (h1 : v1 < 64) (h2 : v2 < 64) :
    b64DecodeQuads [b64Translate (b64CharOfVal v1), b64Translate (b64CharOfVal v2),
      '=', '='] = some [v1 * 4 + v2 / 16] := by
  rw [b64DecodeQuads]
  rw [b64StdVal_translate_charOfVal v1 h1, b64StdVal_translate_charOfVal v2 h2]
  dsimp only
  rw [if_pos rfl, if_pos (And.intro rfl rfl)]

theorem b64DecodeQuads_pad1 (v1 v2 v3 : Nat) (h1 : v1 < 64) (h2 : v2 < 64) (h3 : v3 < 64) :
    b64DecodeQuads [b64Translate (b64CharOfVal v1), b64Translate (b64CharOfVal v2),
      b64Translate (b64CharOfVal v3), '='] =
      some [v1 * 4 + v2 / 16, v2 % 16 * 16 + v3 / 4] := by
  rw [b64DecodeQuads]
  rw [b64StdVal_translate_charOfVal v1 h1, b64StdVal_translate_charOfVal v2 h2,
      b64StdVal_translate_charOfVal v3 h3]
  dsimp only
  rw [if_neg (b64Translate_charOfVal_ne_eq v3 h3), if_pos rfl, if_pos rfl]

/-- The characters of an encoded block all survive binascii's
discard filter. -/
theorem b64_filter_keep : ∀ bs : List Nat, (∀ b ∈ bs, b < 256) →
    ((urlsafeB64Encode bs).map b64Translate).filter b64KeepChar =
      (urlsafeB64Encode bs).map b64Translate := by
  intro bs
  generalize hn : bs.length = n
  induction n using Nat.strong_induction_on generalizing bs with
  | _ n ih =>
    rcases bs with _ | ⟨b1, _ | ⟨b2, _ | ⟨b3, rest⟩⟩⟩ <;> intro hlt
    · rfl
    · have h1 : b1 < 256 := hlt b1 (by simp)
      rw [urlsafeB64Encode]
      simp [List.filter_cons, b64KeepChar_translate_charOfVal _ (by omega : b1 / 4 < 64),
        b64KeepChar_translate_charOfVal _ (by omega : b1 % 4 * 16 < 64), b64KeepChar_translate_pad]
    · have h1 : b1 < 256 := hlt b1 (by simp)
      have h2 : b2 < 256 := hlt b2 (by simp)
      rw [urlsafeB64Encode]
      simp [List.filter_cons, b64KeepChar_translate_charOfVal _ (by omega : b1 / 4 < 64),
        b64KeepChar_translate_charOfVal _ (by omega : b1 % 4 * 16 + b2 / 16 < 64),
        b64KeepChar_translate_charOfVal _ (by omega : b2 % 16 * 4 < 64), b64KeepChar_translate_pad]
    · have h1 : b1 < 256 := hlt b1 (by simp)
      have h2 : b2 < 256 := hlt b2 (by simp)
      have h3 : b3 < 256 := hlt b3 (by simp)
      subst hn
      have hrec := ih rest.length (by simp only [List.length_cons]; omega) rest rfl
        (fun b hb => hlt b (by simp [hb]))
      rw [urlsafeB64Encode]
      simp only [List.map_cons, List.filter_cons,
        b64KeepChar_translate_charOfVal _ (by omega : b1 / 4 < 64),
        b64KeepChar_translate_charOfVal _ (by omega : b1 % 4 * 16 + b2 / 16 < 64),
        b64KeepChar_translate_charOfVal _ (by omega : b2 % 16 * 4 + b3 / 64 < 64),
        b64KeepChar_translate_charOfVal _ (by omega : b3 % 64 < 64), if_true]
      rw [hrec]

/-- URL-safe base64 round-trip on byte lists. -/
theorem b64_encode_decode : ∀ bs : List Nat, (∀ b ∈ bs, b < 256) →
    urlsafeB64Decode (urlsafeB64Encode bs) = some bs := by
  intro bs
  generalize hn : bs.length = n
  induction n using Nat.strong_induction_on generalizing bs with
  | _ n ih =>
    rcases bs with _ | ⟨b1, _ | ⟨b2, _ | ⟨b3, rest⟩⟩⟩ <;> intro hlt
    · rfl
    · have h1 : b1 < 256 := hlt b1 (by simp)
      unfold urlsafeB64Decode
      rw [b64_filter_keep _ hlt]
      rw [urlsafeB64Encode]
      simp only [List.map_cons, List.map_nil, b64Translate_eq]
      rw [b64DecodeQuads_pad2 _ _ (by omega) (by omega)]
      congr 2
      omega
    · have h1 : b1 < 256 := hlt b1 (by simp)
      have h2 : b2 < 256 := hlt b2 (by simp)
      unfold urlsafeB64Decode
      rw [b64_filter_keep _ hlt]
      rw [urlsafeB64Encode]
      simp only [List.map_cons, List.map_nil, b64Translate_eq]
      rw [b64DecodeQuads_pad1 _ _ _ (by omega) (by omega) (by omega)]
      congr 2
      · omega
      · congr 1
        omega
    · have h1 : b1 < 256 := hlt b1 (by simp)
      have h2 : b2 < 256 := hlt b2 (by simp)
      have h3 : b3 < 256 := hlt b3 (by simp)
      subst hn
      have hrec := ih rest.length (by simp only [List.length_cons]; omega) rest rfl
        (fun b hb => hlt b (by simp [hb]))
      unfold urlsafeB64Decode at hrec
      unfold urlsafeB64Decode
      rw [b64_filter_keep _ hlt]
      rw [b64_filter_keep _ (fun b hb => hlt b (by simp [hb]))] at hrec
      rw [urlsafeB64Encode]
      simp only [List.map_cons]
      rw [b64DecodeQuads_step _ _ _ _ (by omega) (by omega) (by omega) (by omega)]
      rw [hrec]
      simp only [Option.map_some']
      congr 2
      · omega
      · congr 1
        · omega
        · congr 1
          omega

theorem utf8EncodeChar_ascii {c : Char} (h : c.toNat < 128) :
    utf8EncodeChar c = [c.toNat] := by
  unfold utf8EncodeChar
  rw [if_pos (by omega)]

theorem utf8Encode_ascii (s : List Char) (h : ∀ c ∈ s, c.toNat < 128) :
    utf8Encode s = s.map Char.toNat := by
  induction s with
  | nil => rfl
  | cons c t ih =>
    unfold utf8Encode at ih ⊢
    simp only [List.map_cons, List.flatten_cons,
      utf8EncodeChar_ascii (h c (by simp))]
    rw [ih (fun d hd => h d (by simp [hd]))]
    rfl

theorem utf8Decode_ascii (s : List Char) (h : ∀ c ∈ s, c.toNat < 128) :
    ∀ fuel, s.length ≤ fuel → utf8DecodeGo fuel (s.map Char.toNat) = some s := by
  induction s with
  | nil => intro fuel _; cases fuel <;> rfl
  | cons c t ih =>
    intro fuel hfuel
    cases fuel with
    | zero => simp at hfuel
    | succ f =>
      have hc : c.toNat < 128 := h c (by simp)
      rw [List.map_cons, utf8DecodeGo.eq_def]
      dsimp only
      rw [if_pos (by omega : c.toNat < 0x80)]
      rw [ih (fun d hd => h d (by simp [hd])) f (by simp at hfuel; omega)]
      simp [Char.ofNat_toNat]

theorem toHexDigit_ascii (n : Nat) : (toHexDigit n).toNat < 128 := by
  unfold toHexDigit
  rcases Nat.lt_or_ge n 16 with h | h
  · interval_cases n <;> decide
  · rw [List.getD_eq_default]
    · decide
    · simpa using h

theorem hex4_ascii (n : Nat) : ∀ d ∈ hex4 n, d.toNat < 128 := by
  intro d hd
  fin_cases hd <;> exact toHexDigit_ascii _

theorem uescape_ascii (n : Nat) {d : Char} (hd : d ∈ '\\' :: 'u' :: hex4 n) :
    d.toNat < 128 := by
  rcases List.mem_cons.mp hd with rfl | hd2
  · decide
  · rcases List.mem_cons.mp hd2 with rfl | hd3
    · decide
    · exact hex4_ascii n d hd3

theorem jsonEscapeChar_ascii (c : Char) : ∀ d ∈ jsonEscapeChar c, d.toNat < 128 := by
  unfold jsonEscapeChar
  split_ifs with h1 h2 h3 h4 h5 h6 h7 h8 h9 <;> intro d hd
  · fin_cases hd <;> decide
  · fin_cases hd <;> decide
  · fin_cases hd <;> decide
  · fin_cases hd <;> decide
  · fin_cases hd <;> decide
  · fin_cases hd <;> decide
  · fin_cases hd <;> decide
  · exact uescape_ascii _ hd
  · rcases List.mem_append.mp hd with h | h <;> exact uescape_ascii _ h
  · simp at hd
    rw [hd]
    push_neg at h8
    omega

theorem natToCharsGo_hex (fuel n : Nat) :
    ∀ d ∈ natToCharsGo fuel n, ∃ m, d = toHexDigit m := by
  induction fuel generalizing n with
  | zero => intro d hd; simp [natToCharsGo] at hd
  | succ f ih =>
    intro d hd
    rw [natToCharsGo] at hd
    split at hd
    · simp at hd; exact ⟨n, hd⟩
    · simp at hd
      rcases hd with h | h
      · exact ih _ d h
      · exact ⟨n % 10, h⟩

theorem jsonDumpsCursor_ascii (key : String) (pos : Int) :
    ∀ c ∈ jsonDumpsCursor key pos, c.toNat < 128 := by
  intro c hc
  unfold jsonDumpsCursor at hc
  simp only [List.append_assoc, List.mem_append] at hc
  rcases hc with h | h | h | h | h
  · -- prefix literal
    fin_cases h <;> decide
  · -- escaped key
    unfold jsonEscape at h
    rw [List.mem_flatten] at h
    obtain ⟨grp, hg, hcg⟩ := h
    rw [List.mem_map] at hg
    obtain ⟨ch, _, rfl⟩ := hg
    exact jsonEscapeChar_ascii ch c hcg
  · fin_cases h <;> decide
  · -- integer digits
    unfold intToChars at h
    split at h
    · simp at h
      rcases h with h | h
      · subst h; decide
      · obtain ⟨m, rfl⟩ := natToCharsGo_hex _ _ c h
        exact toHexDigit_ascii m
    · obtain ⟨m, rfl⟩ := natToCharsGo_hex _ _ c h
      exact toHexDigit_ascii m
  · fin_cases h
    decide

theorem fromHexDigit_toHexDigit_fin : ∀ n : Fin 16,
    fromHexDigit (toHexDigit n.val) = some n.val := by decide

theorem fromHexDigit_toHexDigit (n : Nat) (h : n < 16) :
    fromHexDigit (toHexDigit n) = some n := by
  simpa using fromHexDigit_toHexDigit_fin ⟨n, h⟩

theorem parseHex4_hex4 (n : Nat) (h : n < 0x10000) (rest : List Char) :
    parseHex4 (hex4 n ++ rest) = some (n, rest) := by
  unfold hex4
  simp only [List.cons_append, List.nil_append]
  rw [parseHex4]
  rw [fromHexDigit_toHexDigit _ (by omega), fromHexDigit_toHexDigit _ (by omega),
      fromHexDigit_toHexDigit _ (by omega), fromHexDigit_toHexDigit _ (by omega)]
  dsimp only
  congr 2
  omega

theorem char_valid_nat (c : Char) :
    c.toNat < 0xD800 ∨ (0xDFFF < c.toNat ∧ c.toNat < 0x110000) := by
  have h := c.valid
  exact h

theorem parseJsonStringGo_literal (f : Nat) (c : Char) (input : List Char)
    (h1 : ¬ c = '"') (h2 : ¬ c = '\\') (h3 : ¬ c.toNat < 0x20) :
    parseJsonStringGo (f + 1) (c :: input) =
      (parseJsonStringGo f input).map (fun p => (c :: p.1, p.2)) := by
  rw [parseJsonStringGo.eq_def]
  dsimp only
  rw [if_neg h1, if_neg h2, if_neg h3]

theorem parseJsonStringGo_esc2 (f : Nat) (e ch : Char) (input : List Char)
    (he : ¬ e = 'u')
    (htab : (if e = '"' then some '"'
      else if e = '\\' then some '\\'
      else if e = '/' then some '/'
      else if e = 'b' then some (Char.ofNat 8)
      else if e = 'f' then some (Char.ofNat 12)
      else if e = 'n' then some '\n'
      else if e = 'r' then some '\r'
      else if e = 't' then some '\t'
      else none) = some ch) :
    parseJsonStringGo (f + 1) ('\\' :: e :: input) =
      (parseJsonStringGo f input).map (fun p => (ch :: p.1, p.2)) := by
  rw [parseJsonStringGo.eq_def]
  dsimp only
  rw [if_neg (by decide : ¬ ('\\' : Char) = '"'), if_pos rfl, if_neg he, htab]

theorem parseJsonStringGo_u (f : Nat) (n : Nat) (input : List Char)
    (hlt : n < 0x10000) (hs1 : ¬ (0xD800 ≤ n ∧ n ≤ 0xDBFF))
    (hs2 : ¬ (0xDC00 ≤ n ∧ n ≤ 0xDFFF)) :
    parseJsonStringGo (f + 1) ('\\' :: 'u' :: (hex4 n ++ input)) =
      (parseJsonStringGo f input).map (fun p => (Char.ofNat n :: p.1, p.2)) := by
  rw [parseJsonStringGo.eq_def]
  dsimp only
  rw [if_neg (by decide : ¬ ('\\' : Char) = '"'), if_pos rfl, if_pos rfl]
  rw [parseHex4_hex4 n hlt input]
  dsimp only
  rw [if_neg hs1, if_neg hs2]

theorem parseJsonStringGo_pair (f : Nat) (n : Nat) (input : List Char)
    (h1 : 0x10000 ≤ n) (h2 : n < 0x110000) :
    parseJsonStringGo (f + 1)
      ('\\' :: 'u' :: (hex4 (0xD800 + (n - 0x10000) / 1024) ++
        ('\\' :: 'u' :: (hex4 (0xDC00 + (n - 0x10000) % 1024) ++ input)))) =
      (parseJsonStringGo f input).map (fun p => (Char.ofNat n :: p.1, p.2)) := by
  have hhi : 0xD800 + (n - 0x10000) / 1024 < 0x10000 := by omega
  have hlo : 0xDC00 + (n - 0x10000) % 1024 < 0x10000 := by omega
  rw [parseJsonStringGo.eq_def]
  dsimp only
  rw [if_neg (by decide : ¬ ('\\' : Char) = '"'), if_pos rfl, if_pos rfl]
  rw [parseHex4_hex4 _ hhi]
  dsimp only
  rw [if_pos (by constructor <;> omega)]
  rw [if_pos (by constructor <;> rfl)]
  rw [parseHex4_hex4 _ hlo]
  dsimp only
  rw [if_pos (by constructor <;> omega)]
  have : 0x10000 + (0xD800 + (n - 0x10000) / 1024 - 0xD800) * 1024 +
      (0xDC00 + (n - 0x10000) % 1024 - 0xDC00) = n := by omega
  rw [this]

theorem parseJsonStringGo_jsonEscape (s : List Char) :
    ∀ fuel rest, s.length + 1 ≤ fuel →
      parseJsonStringGo fuel (jsonEscape s ++ '"' :: rest) = some (s, rest) := by
  induction s with
  | nil =>
    intro fuel rest hf
    cases fuel with
    | zero => omega
    | succ f =>
      show parseJsonStringGo (f + 1) (jsonEscape [] ++ '"' :: rest) = _
      rw [show jsonEscape [] = [] from rfl, List.nil_append, parseJsonStringGo.eq_def]
      dsimp only
      rw [if_pos rfl]
  | cons c t ih =>
    intro fuel rest hf
    cases fuel with
    | zero => simp at hf
    | succ f =>
      have hf' : t.length + 1 ≤ f := by simp at hf; omega
      have hrec := ih f rest hf'
      have hesc : jsonEscape (c :: t) ++ '"' :: rest =
          jsonEscapeChar c ++ (jsonEscape t ++ '"' :: rest) := by
        unfold jsonEscape
        simp
      rw [hesc]
      unfold jsonEscapeChar
      by_cases h1 : c = '"'
      · subst h1
        rw [if_pos rfl]
        simp only [List.cons_append, List.nil_append]
        rw [parseJsonStringGo_esc2 f '"' '"' _ (by decide) (by decide), hrec]
        rfl
      rw [if_neg h1]
      by_cases h2 : c = '\\'
      · subst h2
        rw [if_pos rfl]
        simp only [List.cons_append, List.nil_append]
        rw [parseJsonStringGo_esc2 f '\\' '\\' _ (by decide) (by decide), hrec]
        rfl
      rw [if_neg h2]
      by_cases h3 : c = '\n'
      · subst h3
        rw [if_pos rfl]
        simp only [List.cons_append, List.nil_append]
        rw [parseJsonStringGo_esc2 f 'n' '\n' _ (by decide) (by decide), hrec]
        rfl
      rw [if_neg h3]
      by_cases h4 : c = '\r'
      · subst h4
        rw [if_pos rfl]
        simp only [List.cons_append, List.nil_append]
        rw [parseJsonStringGo_esc2 f 'r' '\r' _ (by decide) (by decide), hrec]
        rfl
      rw [if_neg h4]
      by_cases h5 : c = '\t'
      · subst h5
        rw [if_pos rfl]
        simp only [List.cons_append, List.nil_append]
        rw [parseJsonStringGo_esc2 f 't' '\t' _ (by decide) (by decide), hrec]
        rfl
      rw [if_neg h5]
      by_cases h6 : c.toNat = 8
      · rw [if_pos h6]
        simp only [List.cons_append, List.nil_append]
        rw [parseJsonStringGo_esc2 f 'b' (Char.ofNat 8) _ (by decide) (by decide), hrec]
        have : Char.ofNat 8 = c := by rw [← h6, Char.ofNat_toNat]
        rw [this]
        rfl
      rw [if_neg h6]
      by_cases h7 : c.toNat = 12
      · rw [if_pos h7]
        simp only [List.cons_append, List.nil_append]
        rw [parseJsonStringGo_esc2 f 'f' (Char.ofNat 12) _ (by decide) (by decide), hrec]
        have : Char.ofNat 12 = c := by rw [← h7, Char.ofNat_toNat]
        rw [this]
        rfl
      rw [if_neg h7]
      by_cases h8 : c.toNat < 0x20 ∨ 0x7e < c.toNat
      · rw [if_pos h8]
        have hval := char_valid_nat c
        by_cases h9 : c.toNat < 0x10000
        · rw [if_pos h9]
          simp only [List.cons_append, List.append_assoc]
          rw [parseJsonStringGo_u f c.toNat _ h9 (by omega) (by omega), hrec]
          rw [Char.ofNat_toNat]
          rfl
        · rw [if_neg h9]
          simp only [List.cons_append, List.append_assoc, List.nil_append]
          rw [parseJsonStringGo_pair f c.toNat _ (by omega) (by omega), hrec]
          rw [Char.ofNat_toNat]
          rfl
      · rw [if_neg h8]
        simp only [List.cons_append, List.nil_append]
        have : (f + 1) = f + 1 := rfl
        rw [parseJsonStringGo_literal f c _ h1 h2 (by omega), hrec]
        rfl

theorem toHexDigit_isDigit_fin : ∀ m : Fin 10, (toHexDigit m.val).isDigit = true := by decide

theorem toHexDigit_val_fin : ∀ m : Fin 10, (toHexDigit m.val).toNat - 48 = m.val := by decide

theorem toHexDigit_ne_zero_fin : ∀ m : Fin 10, 0 < m.val → ¬ toHexDigit m.val = '0' := by decide

theorem toHexDigit_ne_minus_fin : ∀ m : Fin 10, ¬ toHexDigit m.val = '-' := by decide

theorem natToCharsGo_ne_nil (fuel n : Nat) (h : n < fuel) : natToCharsGo fuel n ≠ [] := by
  cases fuel with
  | zero => omega
  | succ f =>
    rw [natToCharsGo]
    split
    · simp
    · simp

theorem natToCharsGo_all_digits (fuel : Nat) : ∀ n, n < fuel →
    ∀ d ∈ natToCharsGo fuel n, d.isDigit = true := by
  induction fuel with
  | zero => intro n h; omega
  | succ f ih =>
    intro n h d hd
    rw [natToCharsGo] at hd
    split at hd
    · simp at hd
      subst hd
      exact toHexDigit_isDigit_fin ⟨n, by omega⟩
    · rw [List.mem_append] at hd
      rcases hd with hd | hd
      · exact ih (n / 10) (by omega) d hd
      · simp at hd
        subst hd
        exact toHexDigit_isDigit_fin ⟨n % 10, by omega⟩

theorem digitsVal_append_singleton (ds : List Char) (d : Char) :
    digitsVal (ds ++ [d]) = digitsVal ds * 10 + (d.toNat - 48) := by
  unfold digitsVal
  rw [List.foldl_append]
  rfl

theorem digitsVal_natToCharsGo (fuel : Nat) : ∀ n, n < fuel →
    digitsVal (natToCharsGo fuel n) = n := by
  induction fuel with
  | zero => intro n h; omega
  | succ f ih =>
    intro n h
    rw [natToCharsGo]
    split
    · next hlt =>
      show digitsVal [toHexDigit n] = n
      unfold digitsVal
      simp only [List.foldl_cons, List.foldl_nil]
      have := toHexDigit_val_fin ⟨n, by omega⟩
      simp only [Nat.zero_mul, Nat.zero_add]
      exact this
    · next hge =>
      rw [digitsVal_append_singleton, ih (n / 10) (by omega)]
      have h2 : (toHexDigit (n % 10)).toNat - 48 = n % 10 := by
        simpa using toHexDigit_val_fin ⟨n % 10, by omega⟩
      rw [h2]
      omega

theorem natToCharsGo_head_ne_zero (fuel : Nat) : ∀ n, n < fuel → 0 < n →
    ¬ (natToCharsGo fuel n).headD 'x' = '0' := by
  induction fuel with
  | zero => intro n h; omega
  | succ f ih =>
    intro n h hpos
    rw [natToCharsGo]
    split
    · next hlt =>
      show ¬ ([toHexDigit n].headD 'x') = '0'
      simp only [List.headD_cons]
      exact toHexDigit_ne_zero_fin ⟨n, by omega⟩ hpos
    · next hge =>
      have hne := natToCharsGo_ne_nil f (n / 10) (by omega)
      have hh := ih (n / 10) (by omega) (by omega)
      rcases hx : natToCharsGo f (n / 10) with _ | ⟨a, l⟩
      · exact absurd hx hne
      · rw [hx] at hh
        simpa using hh

theorem natToCharsGo_head_ne_minus (fuel : Nat) : ∀ n, n < fuel →
    ¬ (natToCharsGo fuel n).headD 'x' = '-' := by
  intro n h
  have hne := natToCharsGo_ne_nil fuel n h
  have hall := natToCharsGo_all_digits fuel n h
  rcases hx : natToCharsGo fuel n with _ | ⟨a, l⟩
  · exact absurd hx hne
  · rw [hx] at hall
    have := hall a (by simp)
    simp only [List.headD_cons]
    intro hcon
    rw [hcon] at this
    exact absurd this (by decide)

theorem takeWhile_all_append (p : Char → Bool) (xs ys : List Char)
    (h : ∀ x ∈ xs, p x = true) :
    (xs ++ ys).takeWhile p = xs ++ ys.takeWhile p := by
  induction xs with
  | nil => rfl
  | cons a l ih =>
    have hpa := h a (by simp)
    simp [List.takeWhile_cons, hpa, ih (fun x hx => h x (by simp [hx]))]

theorem headD_append_of_ne_nil {xs : List Char} (ys : List Char) (d : Char)
    (h : xs ≠ []) : (xs ++ ys).headD d = xs.headD d := by
  rcases xs with _ | ⟨a, l⟩
  · exact absurd rfl h
  · rfl

theorem headD_default_irrel {xs : List Char} (h : xs ≠ []) (a b : Char) :
    xs.headD a = xs.headD b := by
  rcases xs with _ | ⟨c, l⟩
  · exact absurd rfl h
  · rfl

theorem natToChars_no_leading_zero (n : Nat) :
    ¬ ((natToChars n).headD '0' = '0' ∧ 1 < (natToChars n).length) := by
  rcases Nat.lt_or_ge n 10 with h | h
  · intro hcon
    have : natToChars n = [toHexDigit n] := by
      unfold natToChars natToCharsGo
      rw [if_pos h]
    rw [this] at hcon
    simp at hcon
  · intro hcon
    have hne := natToCharsGo_head_ne_zero (n + 1) n (Nat.lt_succ_self n) (by omega)
    unfold natToChars at hcon
    rw [headD_default_irrel (natToCharsGo_ne_nil (n+1) n (Nat.lt_succ_self n)) '0' 'x'] at hcon
    exact hne hcon.1

theorem parseJsonInt_natToChars (n : Nat) :
    parseJsonInt (natToChars n ++ ['\x7d']) = some ((n : Int), ['\x7d']) := by
  have hlt : n < n + 1 := Nat.lt_succ_self n
  have hne : natToChars n ≠ [] := natToCharsGo_ne_nil (n + 1) n hlt
  have hall : ∀ d ∈ natToChars n, d.isDigit = true :=
    natToCharsGo_all_digits (n + 1) n hlt
  have hhead : ¬ ((natToChars n ++ ['\x7d']).headD 'x' = '-') := by
    rw [headD_append_of_ne_nil _ _ hne]
    exact natToCharsGo_head_ne_minus (n + 1) n hlt
  have hdigits : (natToChars n ++ ['\x7d']).takeWhile (fun c => c.isDigit) =
      natToChars n := by
    rw [takeWhile_all_append _ _ _ hall]
    simp [List.takeWhile_cons]
  simp only [parseJsonInt]
  rw [if_neg hhead, hdigits]
  rw [if_neg (by simpa [List.isEmpty_iff] using hne)]
  rw [if_neg (natToChars_no_leading_zero n)]
  rw [List.drop_left]
  rw [if_neg (by decide)]
  rw [if_neg hhead]
  have hdv : digitsVal (natToChars n) = n := digitsVal_natToCharsGo _ _ hlt
  rw [hdv]

theorem parseJsonInt_intToChars (i : Int) :
    parseJsonInt (intToChars i ++ ['\x7d']) = some (i, ['\x7d']) := by
  rcases Int.lt_or_le i 0 with hneg | hpos
  · have hshape : intToChars i = '-' :: natToChars i.natAbs := by
      unfold intToChars
      rw [if_pos hneg]
    rw [hshape]
    have n := i.natAbs
    have hlt : i.natAbs < i.natAbs + 1 := Nat.lt_succ_self _
    have hne : natToChars i.natAbs ≠ [] := natToCharsGo_ne_nil _ _ hlt
    have hall : ∀ d ∈ natToChars i.natAbs, d.isDigit = true :=
      natToCharsGo_all_digits _ _ hlt
    have hdigits : (natToChars i.natAbs ++ ['\x7d']).takeWhile (fun c => c.isDigit) =
        natToChars i.natAbs := by
      rw [takeWhile_all_append _ _ _ hall]
      simp [List.takeWhile_cons]
    simp only [parseJsonInt, List.cons_append]
    have hC : (('-' :: (natToChars i.natAbs ++ ['\x7d'])).headD 'x' = '-') := rfl
    rw [if_pos hC]
    simp only [List.drop_succ_cons, List.drop_zero]
    rw [hdigits]
    rw [if_neg (by simpa [List.isEmpty_iff] using hne)]
    rw [if_neg (natToChars_no_leading_zero i.natAbs)]
    rw [List.drop_left]
    rw [if_neg (by decide)]
    rw [if_pos hC]
    have hdv : digitsVal (natToChars i.natAbs) = i.natAbs := digitsVal_natToCharsGo _ _ hlt
    rw [hdv]
    congr 2
    omega
  · have hshape : intToChars i = natToChars i.toNat := by
      unfold intToChars
      rw [if_neg (by omega)]
    rw [hshape, parseJsonInt_natToChars]
    congr 2
    omega

theorem jsonWs_cons (c : Char) (r : List Char)
    (h : (c = ' ' || c = '\t' || c = '\n' || c = '\r') = false) :
    jsonWs (c :: r) = c :: r := by
  unfold jsonWs
  rw [List.dropWhile_cons, h]
  rfl

theorem jsonWs_space (r : List Char) : jsonWs (' ' :: r) = jsonWs r := by
  unfold jsonWs
  rw [List.dropWhile_cons]
  rfl

theorem parseJsonStringGo_close (f : Nat) (rest : List Char) :
    parseJsonStringGo (f + 1) ('"' :: rest) = some ([], rest) := by
  rw [parseJsonStringGo.eq_def]
  dsimp only
  rw [if_pos rfl]

theorem jsonEscapeChar_ne_nil (c : Char) : jsonEscapeChar c ≠ [] := by
  unfold jsonEscapeChar
  split_ifs <;> simp

theorem jsonEscape_length_ge (s : List Char) : s.length ≤ (jsonEscape s).length := by
  induction s with
  | nil => exact Nat.zero_le _
  | cons c t ih =>
    have h : jsonEscape (c :: t) = jsonEscapeChar c ++ jsonEscape t := by
      unfold jsonEscape
      simp
    rw [h, List.length_append, List.length_cons]
    have hne := jsonEscapeChar_ne_nil c
    have : 1 ≤ (jsonEscapeChar c).length := by
      rcases he : jsonEscapeChar c with _ | ⟨a, l⟩
      · exact absurd he hne
      · simp
    omega

theorem intToChars_ne_nil (i : Int) : intToChars i ≠ [] := by
  unfold intToChars
  split
  · simp
  · exact natToCharsGo_ne_nil _ _ (Nat.lt_succ_self _)

theorem intToChars_head_not_quote (i : Int) :
    ¬ (intToChars i).headD 'x' = '"' := by
  unfold intToChars
  split
  · simp only [List.headD_cons]
    decide
  · have hall := natToCharsGo_all_digits (i.toNat + 1) i.toNat (Nat.lt_succ_self _)
    have hne := natToCharsGo_ne_nil (i.toNat + 1) i.toNat (Nat.lt_succ_self _)
    rcases hx : natToCharsGo (i.toNat + 1) i.toNat with _ | ⟨a, l⟩
    · exact absurd hx hne
    · rw [hx] at hall
      have := hall a (by simp)
      unfold natToChars
      rw [hx]
      simp only [List.headD_cons]
      intro hcon
      rw [hcon] at this
      exact absurd this (by decide)

theorem parseJsonValue_int_close (pos : Int) :
    parseJsonValue (intToChars pos ++ ['\x7d']) = some (JVal.int pos, ['\x7d']) := by
  have hne := intToChars_ne_nil pos
  have hq := intToChars_head_not_quote pos
  rcases hx : intToChars pos with _ | ⟨d, ds⟩
  · exact absurd hx hne
  · rw [hx] at hq
    simp only [List.headD_cons] at hq
    show parseJsonValue (d :: (ds ++ ['\x7d'])) = _
    unfold parseJsonValue
    dsimp only
    rw [if_neg hq]
    have : d :: (ds ++ ['\x7d']) = intToChars pos ++ ['\x7d'] := by rw [hx]; rfl
    rw [this, parseJsonInt_intToChars]
    rfl

theorem isDigit_not_ws {c : Char} (h : c.isDigit = true) :
    (c = ' ' || c = '\t' || c = '\n' || c = '\r') = false := by
  by_contra hcon
  rw [Bool.not_eq_false, Bool.or_eq_true, Bool.or_eq_true, Bool.or_eq_true] at hcon
  rcases hcon with ((h1 | h1) | h1) | h1 <;>
    (have hc := of_decide_eq_true h1; subst hc; exact absurd h (by decide))

theorem jsonWs_intToChars (pos : Int) (t : List Char) :
    jsonWs (intToChars pos ++ t) = intToChars pos ++ t := by
  have hne := intToChars_ne_nil pos
  rcases hx : intToChars pos with _ | ⟨a, l⟩
  · exact absurd hx hne
  · unfold intToChars at hx
    rw [List.cons_append]
    refine jsonWs_cons _ _ ?_
    split at hx
    · have : a = '-' := by
        have := congrArg (fun l => l.headD 'x') hx
        simpa using this.symm
      subst this
      decide
    · have hall : ∀ d ∈ natToChars pos.toNat, d.isDigit = true :=
        natToCharsGo_all_digits _ _ (Nat.lt_succ_self pos.toNat)
      rw [hx] at hall
      exact isDigit_not_ws (hall a (by simp))

theorem parse_member_p (f : Nat) (pos : Int) :
    parseJsonMembersGo (f + 1)
      ('"' :: 'p' :: '"' :: ':' :: ' ' :: (intToChars pos ++ ['\x7d'])) =
      some ([(['p'], JVal.int pos)], ['\x7d']) := by
  rw [parseJsonMembersGo]
  try dsimp only
  rw [if_pos rfl]
  simp only [List.length_cons]
  rw [parseJsonStringGo_literal _ 'p' _ (by decide) (by decide) (by decide),
      parseJsonStringGo_close]
  simp only [Option.map_some']
  try dsimp only
  rw [jsonWs_cons _ _ (by decide)]
  try dsimp only
  rw [if_pos rfl, jsonWs_space, jsonWs_intToChars, parseJsonValue_int_close]
  simp only [Option.map_some']
  try dsimp only
  rw [jsonWs_cons _ _ (by decide)]
  try dsimp only
  rw [if_neg (by decide)]

theorem parse_members_kp (f : Nat) (key : String) (pos : Int) (hf : 1 ≤ f) :
    parseJsonMembersGo (f + 1)
      ('"' :: 'k' :: '"' :: ':' :: ' ' :: '"' ::
        (jsonEscape key.data ++ ('"' :: ',' :: ' ' :: '"' :: 'p' :: '"' :: ':' :: ' ' ::
          (intToChars pos ++ ['\x7d'])))) =
      some ([(['k'], JVal.str key.data), (['p'], JVal.int pos)], ['\x7d']) := by
  rw [parseJsonMembersGo]
  try dsimp only
  rw [if_pos rfl]
  simp only [List.length_cons]
  rw [parseJsonStringGo_literal _ 'k' _ (by decide) (by decide) (by decide),
      parseJsonStringGo_close]
  simp only [Option.map_some']
  try dsimp only
  rw [jsonWs_cons _ _ (by decide)]
  try dsimp only
  rw [if_pos rfl, jsonWs_space]
  rw [jsonWs_cons _ _ (by decide)]
  -- parseJsonValue on the quoted escaped key
  rw [show parseJsonValue ('"' ::
      (jsonEscape key.data ++ ('"' :: ',' :: ' ' :: '"' :: 'p' :: '"' :: ':' :: ' ' ::
        (intToChars pos ++ ['\x7d'])))) =
      Option.map (fun p => (JVal.str p.1, p.2))
        (parseJsonStringGo
          ((jsonEscape key.data ++ ('"' :: ',' :: ' ' :: '"' :: 'p' :: '"' :: ':' :: ' ' ::
            (intToChars pos ++ ['\x7d']))).length + 1)
          (jsonEscape key.data ++ ('"' :: ',' :: ' ' :: '"' :: 'p' :: '"' :: ':' :: ' ' ::
            (intToChars pos ++ ['\x7d'])))) from by
    unfold parseJsonValue
    try dsimp only
    rw [if_pos rfl]]
  rw [parseJsonStringGo_jsonEscape key.data _ _ (by
    rw [List.length_append]
    have := jsonEscape_length_ge key.data
    omega)]
  simp only [Option.map_some']
  try dsimp only
  rw [jsonWs_cons _ _ (by decide)]
  try dsimp only
  rw [if_pos rfl, jsonWs_space]
  rw [jsonWs_cons _ _ (by decide)]
  obtain ⟨f2, rfl⟩ : ∃ f2, f = f2 + 1 := ⟨f - 1, by omega⟩
  rw [parse_member_p f2 pos]

theorem parseCursorObj_dumps (key : String) (pos : Int) :
    parseCursorObj (jsonDumpsCursor key pos) =
      some [(['k'], JVal.str key.data), (['p'], JVal.int pos)] := by
  have hshape : jsonDumpsCursor key pos =
      '\x7b' :: '"' :: 'k' :: '"' :: ':' :: ' ' :: '"' ::
        (jsonEscape key.data ++ ('"' :: ',' :: ' ' :: '"' :: 'p' :: '"' :: ':' :: ' ' ::
          (intToChars pos ++ ['\x7d']))) := rfl
  rw [hshape]
  unfold parseCursorObj
  rw [jsonWs_cons _ _ (by decide)]
  try dsimp only
  rw [if_pos rfl]
  rw [jsonWs_cons _ _ (by decide)]
  try dsimp only
  rw [if_neg (by decide)]
  simp only [List.length_cons]
  rw [parse_members_kp _ key pos (by omega)]
  try dsimp only
  rw [jsonWs_cons _ _ (by decide)]
  try dsimp only
  rw [if_pos rfl]
  rfl

/-- C6: for every key string and every integer position (in particular
every non-negative one), decoding the continuation token produced by
encoding `(key, position)` yields exactly `(key, position)`. -/
theorem C6_cursor_roundtrip (key : String) (pos : Int) :
    decode_cursor (encode_cursor key pos) = some (key, pos) := by
  unfold encode_cursor decode_cursor
  have hascii := jsonDumpsCursor_ascii key pos
  have hbytes : ∀ b ∈ utf8Encode (jsonDumpsCursor key pos), b < 256 := by
    rw [utf8Encode_ascii _ hascii]
    intro b hb
    rw [List.mem_map] at hb
    obtain ⟨c, hc, rfl⟩ := hb
    have := hascii c hc
    omega
  rw [show (String.mk (urlsafeB64Encode (utf8Encode (jsonDumpsCursor key pos)))).data =
      urlsafeB64Encode (utf8Encode (jsonDumpsCursor key pos)) from rfl]
  rw [b64_encode_decode _ hbytes]
  try dsimp only
  rw [utf8Encode_ascii _ hascii]
  rw [utf8Decode_ascii _ hascii _ (by simp)]
  try dsimp only
  rw [parseCursorObj_dumps]
  rfl

end ClaimC6


section ClaimC3

/-- C3: the resolver search retrieves a shortlist capped at the fixed
constant 100; the resolver returns the entire filtered scored shortlist
as the candidate pool (the final `items[:k]` can never drop anything,
so it equals the spec-side untruncated pool); the service invokes the
resolver with the configured `TOPK_CANDIDATES`, independent of the
request's `limit`; and truncation to the page size happens only in the
paginator, as a slice of the full pool. -/
theorem C3_full_shortlist_to_paginator :
    (∀ (st : SuggesterState) (reloadSt : Unit → SuggesterState) (text : String)
        (k : Nat) (ms : ℚ) (ur : Option Bool),
      (TagSuggester.suggest st reloadSt text k ms ur).1
        = specResolverPool st reloadSt text k ms ur) ∧
    (∀ (svc : TagServiceState) (req : SuggestRequest) (content : String) (n : Nat),
      TagService.freshPool svc { req with limit := n } content
        = TagService.freshPool svc req content) ∧
    (∀ (E : List (List ℚ)) (qv : List ℚ) (kc : Nat),
      (searchTopK E qv (min 100 (max kc 1))).length
        = min (min 100 (max kc 1)) E.length) ∧
    (∀ (svc : TagServiceState) (req : SuggestRequest) (cache : PoolCache),
      TagService.articleContent svc req ≠ "" →
      cache.lookup (TagService.poolKey svc req
        (TagService.articleContent svc req)) = none →
      (TagService.suggestTags svc req cache).1
        = pySlice (TagService.freshPool svc req
              (TagService.articleContent svc req)).1
            (cursorStartAndKey req).1
            (min ((TagService.freshPool svc req
                (TagService.articleContent svc req)).1.length : Int)
              ((cursorStartAndKey req).1
                + (((if req.limit = 0 then 5 else req.limit) : Nat) : Int)))) := by
  refine ⟨?_, ?_, ?_, ?_⟩
  · intro st reloadSt text k ms ur
    exact suggest_no_truncation st reloadSt text k ms ur
  · intro svc req content n
    rfl
  · intro E qv kc
    exact searchTopK_length E qv (min 100 (max kc 1))
  · intro svc req cache h hmiss
    unfold TagService.suggestTags
    dsimp only
    rw [if_neg h, hmiss]
    rfl

end ClaimC3

section ClaimC8

/-- C8 (counterexample).  The claim quantifies over every `min_score`,
but for the negative values the request schema allows (from -1.0 to
1.0) the widened threshold `max 0 (min_score - 0.15)` is higher than
`min_score` itself.  Concretely, at `min_score = -1` a tag of raw
similarity -1 is admitted into the pool without widen but rejected with
widen: widening admits strictly fewer candidates. -/
theorem C8_counterexample :
    reqC8.min_score = -1 ∧
    effectiveMin false reqC8.min_score = -1 ∧
    effectiveMin true reqC8.min_score = 0 ∧
    (TagService.freshPool svcC8 reqC8 "hello").1.length = 1 ∧
    (TagService.freshPool svcC8 { reqC8 with widen := true } "hello").1.length = 0 :=
  ⟨rfl, by with_unfolding_all rfl, by with_unfolding_all rfl,
   by with_unfolding_all rfl, by with_unfolding_all rfl⟩

/-- C8 (amended): for a non-negative `min_score` (the spec's intended
range), widening lowers the effective threshold, so resolving with
`widen = true` admits at least as many candidates into the freshly
computed pool as with `widen = false`, never fewer. -/
theorem C8_widen_admits_at_least (svc : TagServiceState) (req : SuggestRequest)
    (content : String) (h : 0 ≤ req.min_score) :
    (TagService.freshPool svc { req with widen := false } content).1.length ≤
      (TagService.freshPool svc { req with widen := true } content).1.length := by
  rw [freshPool_length_countP, freshPool_length_countP]
  dsimp only
  refine suggest_countP_mono _ _ _ _ ?_ _ _ ?_
  · unfold effectiveMin
    rw [if_pos rfl, if_neg (by simp)]
    refine max_le h ?_
    linarith
  · intro it s
    rfl

/-- C8 (witness): the amended monotonicity at a concrete request with
`min_score = 1/2`. -/
theorem C8_widen_admits_at_least_witness :
    (TagService.freshPool demoSvc { reqC8w with widen := false } "hello").1.length ≤
      (TagService.freshPool demoSvc { reqC8w with widen := true } "hello").1.length :=
  C8_widen_admits_at_least demoSvc reqC8w "hello" (by with_unfolding_all decide)

end ClaimC8

section ClaimC9

/-- C9: the rerank gate and the rerank effect.  (1) When reranking is
disabled, the pool empty, or the mean hybrid score not below 0.6, the
pool is exactly the filtered shortlist, untouched.  (2) When the gate
holds, the pool is the cross-encoder rerank of that shortlist.  (3)
With a loaded encoder, reranking is a permutation of the
score-replaced items (each score replaced by the pairwise encoder
score of the query and the item text), the result is sorted descending
by score, and the multiset of slugs — membership — is unchanged.  (4)
Without a loaded encoder the items pass through unchanged. -/
theorem C9_rerank_gate_and_effect :
    (∀ (st1 : SuggesterState) (tp : String) (qv : List ℚ) (kc : Nat) (ms : ℚ) (g : Bool),
      ¬ (g = true ∧
          shortlistItems st1 tp (searchTopK (st1.embeddings.getD []) qv
            (min 100 (max kc 1))) ms ≠ [] ∧
          (if (shortlistItems st1 tp (searchTopK (st1.embeddings.getD []) qv
                (min 100 (max kc 1))) ms).length = 0 then (0 : ℚ)
           else ((shortlistItems st1 tp (searchTopK (st1.embeddings.getD []) qv
                (min 100 (max kc 1))) ms).map (fun it => it.score)).sum /
             ((shortlistItems st1 tp (searchTopK (st1.embeddings.getD []) qv
                (min 100 (max kc 1))) ms).length : ℚ)) < 3/5) →
      resolverItems st1 tp qv kc ms g
        = shortlistItems st1 tp (searchTopK (st1.embeddings.getD []) qv
            (min 100 (max kc 1))) ms) ∧
    (∀ (st1 : SuggesterState) (tp : String) (qv : List ℚ) (kc : Nat) (ms : ℚ) (g : Bool),
      (g = true ∧
          shortlistItems st1 tp (searchTopK (st1.embeddings.getD []) qv
            (min 100 (max kc 1))) ms ≠ [] ∧
          (if (shortlistItems st1 tp (searchTopK (st1.embeddings.getD []) qv
                (min 100 (max kc 1))) ms).length = 0 then (0 : ℚ)
           else ((shortlistItems st1 tp (searchTopK (st1.embeddings.getD []) qv
                (min 100 (max kc 1))) ms).map (fun it => it.score)).sum /
             ((shortlistItems st1 tp (searchTopK (st1.embeddings.getD []) qv
                (min 100 (max kc 1))) ms).length : ℚ)) < 3/5) →
      resolverItems st1 tp qv kc ms g
        = rerank_with_cross_encoder st1 tp
            (shortlistItems st1 tp (searchTopK (st1.embeddings.getD []) qv
              (min 100 (max kc 1))) ms)) ∧
    (∀ (st : SuggesterState) (q : String) (items : List Item)
        (ce : String → String → ℚ),
      st.cross_encoder = some ce →
      (rerank_with_cross_encoder st q items).Perm
          (items.map (fun it => { it with score := ce q (item_text it) })) ∧
      (rerank_with_cross_encoder st q items).Pairwise
          (fun a b => b.score ≤ a.score) ∧
      ((rerank_with_cross_encoder st q items).map Item.slug).Perm
          (items.map Item.slug)) ∧
    (∀ (st : SuggesterState) (q : String) (items : List Item),
      st.cross_encoder = none → rerank_with_cross_encoder st q items = items) := by
  refine ⟨?_, ?_, ?_, ?_⟩
  · intro st1 tp qv kc ms g h
    unfold resolverItems
    dsimp only
    rw [if_neg h]
  · intro st1 tp qv kc ms g h
    unfold resolverItems
    dsimp only
    rw [if_pos h]
  · intro st q items ce hce
    refine ⟨?_, ?_, ?_⟩
    · unfold rerank_with_cross_encoder
      rw [hce]
      exact sortStrict_perm _ _
    · unfold rerank_with_cross_encoder
      rw [hce]
      refine (sortStrict_pairwise (fun a b => decide (b.score < a.score))
        (fun x y hxy => ?_) (fun x y z hxy hyz => ?_)
        (items.map (fun it => { it with score := ce q (item_text it) }))).imp
        (fun hab => le_of_not_lt (of_decide_eq_false hab))
      · rw [decide_eq_true_eq] at hxy
        exact decide_eq_false (lt_asymm hxy)
      · rw [decide_eq_true_eq] at hxy hyz
        exact decide_eq_true (lt_trans hyz hxy)
    · have hperm := (sortStrict_perm (fun a b : Item => decide (b.score < a.score))
        (items.map (fun it => { it with score := ce q (item_text it) }))).map Item.slug
      rw [List.map_map] at hperm
      unfold rerank_with_cross_encoder
      rw [hce]
      exact hperm
  · intro st q items hnone
    unfold rerank_with_cross_encoder
    rw [hnone]

end ClaimC9


end TnnAI
